import Mathlib

/-!
# rkmedia — the detection-overlay stage (`src/src/rknn/draw_filter.cc`)

A shallow embedding of `DrawFilter` and of the free functions `draw_rect`,
`draw_nv12_rect`, `combine_rect` and `hw_draw_rect`, followed by theorems about
them.

Conventions of the embedding:

* a C++ `int` is a Lean `Int`; signed overflow is undefined behaviour in C++ and
  is outside the embedding (all statements are about the mathematical values);
  the store of a wider value into an `int` is `narrow32`;
* C++ `/` and `%` are `Int.tdiv` and `Int.tmod` (truncation towards zero),
  `>> 1` is `>>> 1` (arithmetic shift, i.e. rounding down);
* a `uint8_t *` is a map from offsets (relative to the pointer) to bytes, a
  store `p[o] = v` is `poke p o v`;
* `std::queue<std::list<RknnResult>>` is a list whose head is the front;
* a call that the C++ standard leaves undefined (`front()` of an empty list)
  makes the embedded function return `none`;
* the scopes of `AutoLockMutex` and the accesses to the queue are kept as a list
  of events per call (`ProcessTrace`, `IoCtrlTrace`), along the branches of
  `Process` and `IoCtrl`.
-/

namespace easymedia

/-! ## Data model -/

/-- The pixel formats of `image.h`, in declaration order (`PIX_FMT_NONE = -1`). -/
inductive PixelFormat where
  | PIX_FMT_NONE
  | PIX_FMT_YUV420P
  | PIX_FMT_NV12
  | PIX_FMT_NV21
  | PIX_FMT_YUV422P
  | PIX_FMT_NV16
  | PIX_FMT_NV61
  | PIX_FMT_YVYU422
  | PIX_FMT_UYVY422
  | PIX_FMT_RGB565
  | PIX_FMT_BGR565
  | PIX_FMT_RGB888
  | PIX_FMT_BGR888
  | PIX_FMT_ARGB8888
  | PIX_FMT_ABGR8888
  | PIX_FMT_NB
  deriving DecidableEq, Repr

/-- The struct `ImageInfo` of `image.h`. -/
structure ImageInfo where
  pix_fmt : PixelFormat
  width : Int
  height : Int
  vir_width : Int
  vir_height : Int
  deriving DecidableEq, Repr

/-- Modelled from the spec: the struct `Rect`, whose declaration is not among
the sources; "four integer edges (left, top, right, bottom)", in the order in
which `DoDraw` brace-initialises them. -/
structure Rect where
  left : Int
  top : Int
  right : Int
  bottom : Int
  deriving DecidableEq, Repr

/-- Modelled from the spec: the struct `RknnResult`, whose declaration is not
among the sources; "one rectangle plus an acquisition timestamp". `timeval` is
the field of that name, `box` stands for `face_info.base.box`. -/
structure RknnResult where
  timeval : Int
  box : Rect
  deriving DecidableEq, Repr

/-- A byte buffer seen through a `uint8_t *`: offset ↦ byte. -/
abbrev Bytes := Int → Nat

/-- The store `p[o] = v` through a `uint8_t *` (the value is cut to 8 bits). -/
def poke (p : Bytes) (o : Int) (v : Nat) : Bytes :=
  fun i => if i = o then v % 256 else p i

/-- The values `lo, lo+1, ..., hi` taken by the control variable of
`for (x = lo; x <= hi; x++)`, none when `hi < lo`. -/
def upTo (lo hi : Int) : List Int :=
  (List.range (hi + 1 - lo).toNat).map (fun (i : Nat) => lo + (i : Int))

/-- The values taken by the control variable of `for (x = lo; x < hi; x++)`. -/
def upToExcl (lo hi : Int) : List Int :=
  (List.range (hi - lo).toNat).map (fun (i : Nat) => lo + (i : Int))

/-- Modelled from the spec: the macro `VALUE_MIN`, not among the sources; "min
of lefts/tops". -/
def VALUE_MIN (a b : Int) : Int := if a < b then a else b

/-- Modelled from the spec: the macro `VALUE_MAX`, not among the sources; "max
of rights/bottoms". -/
def VALUE_MAX (a b : Int) : Int := if a > b then a else b

/-- Modelled from the spec: the macro `UPALIGNTO16`, not among the sources;
"align left/top up to the next multiple of 16": the least multiple of 16 that
is not below the value. -/
def UPALIGNTO16 (v : Int) : Int := (v + 15) / 16 * 16

/-- Modelled from the spec: the macro `DOWNALIGNTO16`, not among the sources;
"right/bottom down to the previous multiple of 16": the greatest multiple of 16
that is not above the value. -/
def DOWNALIGNTO16 (v : Int) : Int := v / 16 * 16

/-- The macro `YUV_PIXEL_RED`. -/
def YUV_PIXEL_RED : Nat := ((0x4C <<< 16) ||| (0x54 <<< 8)) ||| 0xFF

/-! ## The software renderer -/

/-- The band test of `draw_nv12_rect` (the `if` inside its two loops), with
`rect_x`, `rect_y`, `rect_w`, `rect_h` as computed there. -/
def nv12_band (rect_x rect_y rect_w rect_h thick j k : Int) : Bool :=
  decide (k ≤ rect_x + thick) || decide (k ≥ rect_x + rect_w - thick) ||
  decide (j ≤ rect_y + thick) || decide (j ≥ rect_y + rect_h - thick)

/-- The body of the inner loop of `draw_nv12_rect` at the pixel `(j, k)`. -/
def nv12_pixel (img_w uv_offset rect_x rect_y rect_w rect_h thick : Int)
    (y u v : Nat) (j : Int) (data : Bytes) (k : Int) : Bytes :=
  if nv12_band rect_x rect_y rect_w rect_h thick j k then
    let y_offset := j * img_w + k
    let u_offset := (j >>> (1 : Nat)) * img_w + k - Int.tmod k 2 + uv_offset
    let v_offset := u_offset + 1
    poke (poke (poke data y_offset y) u_offset u) v_offset v
  else data

/-- The function `draw_nv12_rect`; its `int` result is the constant 0, which the
only caller discards, so the embedding returns the bytes. -/
def draw_nv12_rect (data : Bytes) (img_w img_h : Int) (rect : Rect) (thick : Int)
    (yuv_color : Nat) : Bytes :=
  let uv_offset := img_w * img_h
  let rect_x := rect.left
  let rect_y := rect.top
  let rect_w := rect.right - rect.left
  let rect_h := rect.bottom - rect.top
  let y := (yuv_color >>> 16) &&& 0xFF
  let u := (yuv_color >>> 8) &&& 0xFF
  let v := (yuv_color >>> 0) &&& 0xFF
  (upTo rect_y (rect_y + rect_h)).foldl
    (fun d j =>
      (upTo rect_x (rect_x + rect_w)).foldl
        (nv12_pixel img_w uv_offset rect_x rect_y rect_w rect_h thick y u v j) d)
    data

/-- The four clamping statements at the head of `draw_rect`, in source order;
each one assigns to the rectangle that the previous one left. -/
def draw_rect_clamp (img_w img_h thick : Int) (rect : Rect) : Rect :=
  let r1 := if rect.right > img_w - thick then { rect with right := img_w - thick } else rect
  let r2 := if r1.left < 0 then { r1 with left := 0 } else r1
  let r3 := if r2.bottom > img_h - thick then { r2 with bottom := img_h - thick } else r2
  let r4 := if r3.top < 0 then { r3 with top := 0 } else r3
  r4

/-- Modelled from the spec: the enumeration `Type` of media buffers, not among
the sources; only "image-typed" or not matters to `Process`. -/
inductive MediaType where
  | None
  | Audio
  | Image
  | Video
  | Text
  deriving DecidableEq, Repr

/-- A media buffer as `Process` and `draw_rect` see it: `GetType()`,
`GetImageInfo()`, `GetPtr()`, `GetAtomicClock()`; `GetWidth()` and
`GetHeight()` are `info.width` and `info.height`. -/
structure ImageBuffer where
  type : MediaType
  info : ImageInfo
  data : Bytes
  atomic_clock : Int

/-- The function `draw_rect`: clamp, then draw when the format is NV12. -/
def draw_rect (buffer : ImageBuffer) (rect : Rect) (thick : Int) : ImageBuffer :=
  let info := buffer.info
  let img_w := buffer.info.width
  let img_h := buffer.info.height
  let rect := draw_rect_clamp img_w img_h thick rect
  if info.pix_fmt = PixelFormat.PIX_FMT_NV12 then
    { buffer with data := draw_nv12_rect buffer.data img_w img_h rect thick YUV_PIXEL_RED }
  else buffer

/-! ## The hardware overlay builder -/

/-- The function `combine_rect`: the zero rectangle for an empty vector,
otherwise element 0 folded with the elements 1, 2, ... -/
def combine_rect (rect : List Rect) : Rect :=
  match rect with
  | [] => { left := 0, top := 0, right := 0, bottom := 0 }
  | r0 :: rest =>
    rest.foldl
      (fun combine ri =>
        { left := VALUE_MIN combine.left ri.left
          right := VALUE_MAX combine.right ri.right
          top := VALUE_MIN combine.top ri.top
          bottom := VALUE_MAX combine.bottom ri.bottom })
      { left := r0.left, right := r0.right, top := r0.top, bottom := r0.bottom }

/-- The band test of `hw_draw_rect` (the `if` inside its two loops). -/
def hw_band (rect : Rect) (thick j k : Int) : Bool :=
  decide (k < rect.left + thick) || decide (k > rect.right - thick) ||
  decide (j < rect.top + thick) || decide (j > rect.bottom - thick)

/-- The function `hw_draw_rect`. -/
def hw_draw_rect (data : Bytes) (img_w : Int) (rect : Rect) (thick : Int) (index : Nat) :
    Bytes :=
  (upToExcl rect.top rect.bottom).foldl
    (fun d j =>
      (upToExcl rect.left rect.right).foldl
        (fun d k => if hw_band rect thick j k then poke d (j * img_w + k) index else d) d)
    data

/-- Modelled from the spec: the struct `OsdRegionData`, whose declaration is not
among the sources; "position (x,y), width, height, an enable flag, a region
identifier, and an owned byte buffer". The numeric fields hold the `int` values
that `DoHwDraw` assigns to them. -/
structure OsdRegionData where
  buffer : Bytes
  pos_x : Int
  pos_y : Int
  width : Int
  height : Int
  region_id : Int
  enable : Int

/-- What a hardware draw leaves behind: the payloads handed to
`flow->Control(VideoEncoder::kOSDDataChange, ...)`, in call order, and the
lines written with `LOG`. -/
structure HwTrace where
  controls : List OsdRegionData
  errors : List String

/-- The function `DrawFilter::DoHwDrawRect`. The payload of the control call is
the copied header; with `enable` set its buffer is the copy of the first
`width * height` bytes, otherwise the header carries `enable = 0`. -/
def DoHwDrawRect (region_data : OsdRegionData) (enable : Int) : HwTrace :=
  if region_data.enable ≠ 0 ∧
      (Int.tmod region_data.width 16 ≠ 0 ∨ Int.tmod region_data.height 16 ≠ 0) then
    { controls := [], errors := ["ERROR: osd region size must be a multiple of 16x16."] }
  else if enable ≠ 0 then
    let buffer_size := region_data.width * region_data.height
    let rdata : OsdRegionData :=
      { region_data with
        buffer := fun o => if 0 ≤ o ∧ o < buffer_size then region_data.buffer o else 0 }
    { controls := [rdata], errors := [] }
  else
    let rdata : OsdRegionData := { region_data with enable := enable }
    { controls := [rdata], errors := [] }

/-- The body of the first loop of `DoHwDraw`: the aligned rectangle of one
result. -/
def align_rect (info : RknnResult) : Rect :=
  { left := UPALIGNTO16 info.box.left
    right := DOWNALIGNTO16 info.box.right
    top := UPALIGNTO16 info.box.top
    bottom := DOWNALIGNTO16 info.box.bottom }

/-- The loop of `DoHwDraw` that aligns the box of every result. -/
def align_rects (nn_result : List RknnResult) : List Rect :=
  nn_result.map align_rect

/-- The loop of `DoHwDraw` that moves every rectangle by the corner of the
combine rectangle. -/
def translate_rects (combine : Rect) (rects : List Rect) : List Rect :=
  rects.map (fun rect =>
    { left := rect.left - combine.left
      right := rect.right - combine.left
      top := rect.top - combine.top
      bottom := rect.bottom - combine.top })

/-- The descriptor that `DoHwDraw` fills in before it allocates the buffer
(`memset` to zero, `enable = 1`, `region_id = 7`, position and size from the
combine rectangle). -/
def hw_descriptor (nn_result : List RknnResult) : OsdRegionData :=
  let combine := combine_rect (align_rects nn_result)
  { buffer := fun _ => 0
    enable := 1
    region_id := 7
    pos_x := combine.left
    pos_y := combine.top
    width := combine.right - combine.left
    height := combine.bottom - combine.top }

/-- The function `DrawFilter::DoHwDraw` (the branch without `DRAW_HW_BUFFER`).
`malloc_ok n` tells whether `malloc(n)` returns a buffer; `thick` is
`draw_rect_thick_`. -/
def DoHwDraw (malloc_ok : Int → Bool) (thick : Int) (nn_result : List RknnResult) : HwTrace :=
  let color_index : Nat := 0x23
  let rects := align_rects nn_result
  let combine := combine_rect rects
  let rects := translate_rects combine rects
  let osd_region_data := hw_descriptor nn_result
  let buffer_size := osd_region_data.width * osd_region_data.height
  if ¬ malloc_ok buffer_size then
    { controls := [], errors := [] }
  else
    let buffer : Bytes := fun o => if 0 ≤ o ∧ o < buffer_size then 0xFF else 0
    let buffer := rects.foldl
      (fun b rect => hw_draw_rect b osd_region_data.width rect thick color_index) buffer
    DoHwDrawRect { osd_region_data with buffer := buffer } 1

/-! ## The stage -/

/-- The data members of `DrawFilter`; `handler_` is `none` for `nullptr`. -/
structure DrawFilter where
  need_async_draw_ : Bool
  need_hw_draw_ : Bool
  draw_rect_thick_ : Int
  nn_results_list_ : List (List RknnResult)
  handler_ : Option Nat

/-- The function `DrawFilter::DoDraw`: `DoDrawRect` (that is `draw_rect` with
`draw_rect_thick_`) for every result of the batch, in order. -/
def DoDraw (thick : Int) (buffer : ImageBuffer) (nn_result : List RknnResult) : ImageBuffer :=
  nn_result.foldl
    (fun b info =>
      draw_rect b
        { left := info.box.left, top := info.box.top,
          right := info.box.right, bottom := info.box.bottom } thick)
    buffer

/-- The loop `while (nn_results_list_.size() >= 2) nn_results_list_.pop();`. -/
def evict : List (List RknnResult) → List (List RknnResult)
  | _ :: b :: rest => evict (b :: rest)
  | q => q

/-- The conversion of a wider integer to the 32-bit `int` (two's complement:
the value modulo 2^32 that lies in [-2^31, 2^31)). -/
def narrow32 (x : Int) : Int :=
  (x + 2147483648) % 4294967296 - 2147483648

/-- The value of `int duartion_ms` in `Process`: `abs((timeval - clock) / 1000)`,
computed in the wide type of the two clocks (microsecond timestamps, declared
outside the sources at hand) and then stored in an `int`, which narrows it to
32 bits. -/
def duartion_ms (timeval clock : Int) : Int :=
  narrow32 ((Int.tdiv (timeval - clock) 1000).natAbs : Int)

/-- What one call of `Process` yields: the returned `int`, the stage afterwards,
the buffer that `output` refers to afterwards, and the hardware trace. -/
structure ProcessResult where
  ret : Int
  filter : DrawFilter
  output : Option ImageBuffer
  hw : HwTrace

/-- The errno value `EINVAL`. -/
def EINVAL : Int := 22

/-- The function `DrawFilter::Process`. `input` and `output` are the two shared
pointers (`none` for a null pointer); `none` as result stands for the undefined
`front()` of an empty batch. -/
def Process (malloc_ok : Int → Bool) (self : DrawFilter)
    (input output : Option ImageBuffer) : Option ProcessResult :=
  match input, output with
  | none, _ => some { ret := -EINVAL, filter := self, output := output, hw := ⟨[], []⟩ }
  | some _, none => some { ret := -EINVAL, filter := self, output := output, hw := ⟨[], []⟩ }
  | some src, some out =>
    if src.type ≠ MediaType.Image then
      some { ret := -EINVAL, filter := self, output := output, hw := ⟨[], []⟩ }
    else if out.type ≠ MediaType.Image then
      some { ret := -EINVAL, filter := self, output := output, hw := ⟨[], []⟩ }
    else if self.nn_results_list_.isEmpty then
      some { ret := 0, filter := self, output := some src, hw := ⟨[], []⟩ }
    else
      -- after the loop the queue is not empty, the first branch is never taken
      match evict self.nn_results_list_ with
      | [] => none
      | nn_result :: queue_rest =>
        match nn_result with
        | [] => none
        | first :: _ =>
          if duartion_ms first.timeval src.atomic_clock > 133 then
            some { ret := 0, filter := { self with nn_results_list_ := queue_rest },
                   output := some src, hw := ⟨[], []⟩ }
          else if self.handler_.isSome ∧ self.need_hw_draw_ = true then
            some { ret := 0
                   filter := { self with nn_results_list_ := nn_result :: queue_rest }
                   output := some src
                   hw := DoHwDraw malloc_ok self.draw_rect_thick_ nn_result }
          else
            some { ret := 0
                   filter := { self with nn_results_list_ := nn_result :: queue_rest }
                   output := some (DoDraw self.draw_rect_thick_ src nn_result)
                   hw := ⟨[], []⟩ }

/-- The sub-request codes that `IoCtrl` tells apart. -/
inductive SubRequestCode where
  | S_NN_INFO
  | other (code : Nat)
  deriving DecidableEq, Repr

/-- Modelled from the spec: the struct `SubRequest`, whose declaration is not
among the sources; "count + array of detection-result records". `arg` is `none`
for a null pointer, otherwise the records `infos[0]`, `infos[1]`, ... it points
to. -/
structure SubRequest where
  sub_request : SubRequestCode
  size : Int
  arg : Option (Nat → RknnResult)

/-- The requests that `IoCtrl` tells apart, with the argument each one reads. -/
inductive Request where
  | S_NN_HANDLER (arg : Option Nat)
  | G_NN_HANDLER
  | S_SUB_REQUEST (req : SubRequest)
  | other (code : Nat)

/-- The list `infos_list` that `IoCtrl` builds from a sub-request. -/
def infos_list (req : SubRequest) : List RknnResult :=
  match req.arg with
  | none => []
  | some infos => (List.range req.size.toNat).map infos

/-- The function `DrawFilter::IoCtrl`: the returned `int` and the stage
afterwards. -/
def IoCtrl (self : DrawFilter) (request : Request) : Int × DrawFilter :=
  match request with
  | Request.S_NN_HANDLER arg => (0, { self with handler_ := arg })
  | Request.G_NN_HANDLER => (0, self)
  | Request.S_SUB_REQUEST req =>
    if req.sub_request = SubRequestCode.S_NN_INFO then
      (0, { self with nn_results_list_ := self.nn_results_list_ ++ [infos_list req] })
    else (0, self)
  | Request.other _ => (-1, self)

/-- The stage after the producer has pushed one batch: `IoCtrl` with
`S_SUB_REQUEST` / `S_NN_INFO`, the count `p.1` and the record array `p.2`. -/
def Push (self : DrawFilter) (p : Int × Option (Nat → RknnResult)) : DrawFilter :=
  (IoCtrl self (Request.S_SUB_REQUEST
    { sub_request := SubRequestCode.S_NN_INFO, size := p.1, arg := p.2 })).2

/-- The batch that `IoCtrl` enqueues for the count `p.1` and the array `p.2`. -/
def batchOf (p : Int × Option (Nat → RknnResult)) : List RknnResult :=
  infos_list { sub_request := SubRequestCode.S_NN_INFO, size := p.1, arg := p.2 }

/-- A 16×16 NV12 image buffer with every byte 0 and capture clock 0. -/
def blankImage : ImageBuffer :=
  { type := MediaType.Image
    info := { pix_fmt := PixelFormat.PIX_FMT_NV12, width := 16, height := 16,
              vir_width := 16, vir_height := 16 }
    data := fun _ => 0
    atomic_clock := 0 }

/-- A stage on the software path (no handler, thickness 2) with the given queue. -/
def swStage (queue : List (List RknnResult)) : DrawFilter :=
  { need_async_draw_ := false, need_hw_draw_ := false, draw_rect_thick_ := 2,
    nn_results_list_ := queue, handler_ := none }

/-- The outline band of the rectangle `R` for the thickness `t`, in the words
of the specification: the pixels (row `j`, column `k`) of `R`, all four edges
included, that lie within `t` of its left, right, top or bottom edge. -/
def inOutlineBand (R : Rect) (t j k : Int) : Prop :=
  (R.top ≤ j ∧ j ≤ R.bottom ∧ R.left ≤ k ∧ k ≤ R.right) ∧
  (k ≤ R.left + t ∨ R.right - t ≤ k ∨ j ≤ R.top + t ∨ R.bottom - t ≤ j)

/-- The byte at offset `o` holding the value `val` is one of the three NV12
samples of the pixel (row `j`, column `k`) of an image of width `w` and height
`h`, set to the fixed colour: luma 0x4C, or the interleaved chroma pair 0x54,
0xFF of the 2×2 block of the pixel. -/
def isColourSample (w h j k o : Int) (val : Nat) : Prop :=
  (o = j * w + k ∧ val = 0x4C) ∨
  (o = (j / 2) * w + k - k % 2 + w * h ∧ val = 0x54) ∨
  (o = (j / 2) * w + k - k % 2 + w * h + 1 ∧ val = 0xFF)

/-- One round of the loop in `combine_rect`: the accumulator `combine` after
the element `ri`. -/
def combine_step (combine ri : Rect) : Rect :=
  { left := VALUE_MIN combine.left ri.left
    right := VALUE_MAX combine.right ri.right
    top := VALUE_MIN combine.top ri.top
    bottom := VALUE_MAX combine.bottom ri.bottom }

/-- The outcome of `Process` in its last branch, where the batch `nn_result`
is handed to `DoHwDraw` or to `DoDraw` and the queue is left as it is after the
eviction loop. -/
def drawOutcome (malloc_ok : Int → Bool) (self : DrawFilter) (src : ImageBuffer)
    (nn_result : List RknnResult) : ProcessResult :=
  if self.handler_.isSome ∧ self.need_hw_draw_ = true then
    { ret := 0
      filter := { self with nn_results_list_ := [nn_result] }
      output := some src
      hw := DoHwDraw malloc_ok self.draw_rect_thick_ nn_result }
  else
    { ret := 0
      filter := { self with nn_results_list_ := [nn_result] }
      output := some (DoDraw self.draw_rect_thick_ src nn_result)
      hw := ⟨[], []⟩ }

/-- The band test of the software renderer in the words of the specification:
`k ≤ left + t` or `k ≥ right − t` or `j ≤ top + t` or `j ≥ bottom − t`. -/
def swBandTest (rect : Rect) (t j k : Int) : Prop :=
  k ≤ rect.left + t ∨ k ≥ rect.right - t ∨ j ≤ rect.top + t ∨ j ≥ rect.bottom - t

/-- The same test with strict comparisons: `k < left + t` or `k > right − t`
or `j < top + t` or `j > bottom − t`. -/
def strictBandTest (rect : Rect) (t j k : Int) : Prop :=
  k < rect.left + t ∨ k > rect.right - t ∨ j < rect.top + t ∨ j > rect.bottom - t

/-- The offset `o` is `j * img_w + k` for a pixel (row `j`, column `k`) of the
half-open range `[top, bottom) × [left, right)` of `rect` that satisfies the
strict band test. -/
def hwWrites (img_w : Int) (rect : Rect) (t o : Int) : Prop :=
  ∃ j k, rect.top ≤ j ∧ j < rect.bottom ∧ rect.left ≤ k ∧ k < rect.right ∧
    strictBandTest rect t j k ∧ o = j * img_w + k

/-- The stage as the constructor `DrawFilter::DrawFilter` leaves it after a
successful parse; each argument is `none` when the parameter string is empty,
otherwise the `atoi` value of `KEY_NEED_ASYNC_DRAW`, `KEY_NEED_HW_DRAW` and
`KEY_DRAW_RECT_THICK`. -/
def DrawFilter.init (need_async_draw need_hw_draw draw_rect_thick : Option Int) : DrawFilter :=
  { need_async_draw_ := match need_async_draw with
      | none => false
      | some v => decide (v ≠ 0)
    need_hw_draw_ := match need_hw_draw with
      | none => false
      | some v => decide (v ≠ 0)
    draw_rect_thick_ := match draw_rect_thick with
      | none => 2
      | some v => v
    nn_results_list_ := []
    handler_ := none }

/-- What a thread does to `draw_mtx_` and to `nn_results_list_`: the
construction of an `AutoLockMutex` (`lock`), the end of its scope (`unlock`),
and the calls `empty()`, `size()`, `front()`, `pop()` and `push()` on the
queue. -/
inductive QueueEvent where
  | lock
  | unlock
  | empty
  | size
  | front
  | pop
  | push
  deriving DecidableEq, Repr

/-- The events of the loop `while (nn_results_list_.size() >= 2)
{ AutoLockMutex rw_mtx(draw_mtx_); nn_results_list_.pop(); }`: the test is
evaluated before the lock of the body is taken. -/
def evictTrace : List (List RknnResult) → List QueueEvent
  | _ :: b :: rest =>
    [QueueEvent.size, QueueEvent.lock, QueueEvent.pop, QueueEvent.unlock] ++ evictTrace (b :: rest)
  | _ => [QueueEvent.size]

/-- The events of one call of `DrawFilter::Process`, in program order, along the
same branches as `Process`: `empty()` (line 180), the eviction loop,
`front()` (line 187), and the locked `pop()` of the staleness branch. -/
def ProcessTrace (self : DrawFilter) (input output : Option ImageBuffer) : List QueueEvent :=
  match input, output with
  | none, _ => []
  | some _, none => []
  | some src, some out =>
    if src.type ≠ MediaType.Image then []
    else if out.type ≠ MediaType.Image then []
    else if self.nn_results_list_.isEmpty then [QueueEvent.empty]
    else
      [QueueEvent.empty] ++ evictTrace self.nn_results_list_ ++ [QueueEvent.front] ++
        (match evict self.nn_results_list_ with
         | (first :: _) :: _ =>
           if duartion_ms first.timeval src.atomic_clock > 133 then
             [QueueEvent.lock, QueueEvent.pop, QueueEvent.unlock]
           else []
         | _ => [])

/-- The events of one call of `DrawFilter::IoCtrl`: each handled case takes the
lock for the rest of its block; the push of `S_NN_INFO` is the last statement
of its block. -/
def IoCtrlTrace (request : Request) : List QueueEvent :=
  match request with
  | Request.S_NN_HANDLER _ => [QueueEvent.lock, QueueEvent.unlock]
  | Request.G_NN_HANDLER => [QueueEvent.lock, QueueEvent.unlock]
  | Request.S_SUB_REQUEST req =>
    if req.sub_request = SubRequestCode.S_NN_INFO then
      [QueueEvent.lock, QueueEvent.push, QueueEvent.unlock]
    else []
  | Request.other _ => []

/-- The queue accesses of a thread's events that are made while the thread does
not hold the mutex; `held` tells whether it holds the mutex at the start. -/
def unlockedAccesses : Bool → List QueueEvent → List QueueEvent
  | _, [] => []
  | _, QueueEvent.lock :: es => unlockedAccesses true es
  | _, QueueEvent.unlock :: es => unlockedAccesses false es
  | held, e :: es => if held then unlockedAccesses held es else e :: unlockedAccesses held es

/-- The two threads of the specification: the consumer runs `Process`, the
producer runs `IoCtrl`. -/
inductive Thread where
  | consumer
  | producer
  deriving DecidableEq, Repr

/-- Whether a schedule (events of both threads in the order in which they
happen) is one that the mutex allows: a thread takes the mutex only when no
thread holds it and releases it only when it holds it; the mutex does not
hinder a queue access made without it. -/
def mutexOk : Option Thread → List (Thread × QueueEvent) → Bool
  | _, [] => true
  | holder, (t, QueueEvent.lock) :: es => holder.isNone && mutexOk (some t) es
  | holder, (t, QueueEvent.unlock) :: es => decide (holder = some t) && mutexOk none es
  | holder, _ :: es => mutexOk holder es

/-- The events of one thread in a schedule, in order. -/
def eventsOf (t : Thread) (schedule : List (Thread × QueueEvent)) : List QueueEvent :=
  (schedule.filter (fun x => decide (x.1 = t))).map Prod.snd

/-! ## Lemmas -/

theorem evict_append_singleton (q : List (List RknnResult)) (b : List RknnResult) :
    evict (q ++ [b]) = [b] := by
  induction q with
  | nil => rfl
  | cons a q ih =>
    cases q with
    | nil => rfl
    | cons c q => simpa [evict] using ih

theorem evict_length_le_one (q : List (List RknnResult)) : (evict q).length ≤ 1 := by
  induction q with
  | nil => simp [evict]
  | cons a q ih =>
    cases q with
    | nil => simp [evict]
    | cons c q => simpa [evict] using ih

theorem foldl_Push_queue (ps : List (Int × Option (Nat → RknnResult))) (self : DrawFilter) :
    (ps.foldl Push self).nn_results_list_ = self.nn_results_list_ ++ ps.map batchOf := by
  induction ps generalizing self with
  | nil => simp
  | cons p ps ih =>
    rw [List.foldl_cons, ih]
    simp [Push, IoCtrl, batchOf]

theorem combine_fold_bounds (rest : List Rect) (acc : Rect) :
    ((rest.foldl combine_step acc).left ≤ acc.left ∧
      (rest.foldl combine_step acc).top ≤ acc.top ∧
      acc.right ≤ (rest.foldl combine_step acc).right ∧
      acc.bottom ≤ (rest.foldl combine_step acc).bottom) ∧
    (∀ r ∈ rest, (rest.foldl combine_step acc).left ≤ r.left ∧
      (rest.foldl combine_step acc).top ≤ r.top ∧
      r.right ≤ (rest.foldl combine_step acc).right ∧
      r.bottom ≤ (rest.foldl combine_step acc).bottom) := by
  induction rest generalizing acc with
  | nil => simp
  | cons a rest ih =>
    obtain ⟨⟨h1, h2, h3, h4⟩, hall⟩ := ih (combine_step acc a)
    have e1 : (combine_step acc a).left ≤ acc.left ∧ (combine_step acc a).left ≤ a.left := by
      simp only [combine_step, VALUE_MIN]; split <;> omega
    have e2 : (combine_step acc a).top ≤ acc.top ∧ (combine_step acc a).top ≤ a.top := by
      simp only [combine_step, VALUE_MIN]; split <;> omega
    have e3 : acc.right ≤ (combine_step acc a).right ∧ a.right ≤ (combine_step acc a).right := by
      simp only [combine_step, VALUE_MAX]; split <;> omega
    have e4 : acc.bottom ≤ (combine_step acc a).bottom ∧
        a.bottom ≤ (combine_step acc a).bottom := by
      simp only [combine_step, VALUE_MAX]; split <;> omega
    refine ⟨⟨?_, ?_, ?_, ?_⟩, ?_⟩
    · simp only [List.foldl_cons]; omega
    · simp only [List.foldl_cons]; omega
    · simp only [List.foldl_cons]; omega
    · simp only [List.foldl_cons]; omega
    · intro r hr
      simp only [List.foldl_cons]
      rcases List.mem_cons.mp hr with rfl | hr
      · refine ⟨?_, ?_, ?_, ?_⟩ <;> omega
      · exact hall r hr

theorem combine_fold_attained (rest : List Rect) (acc : Rect) :
    ((rest.foldl combine_step acc).left = acc.left ∨
      ∃ r ∈ rest, (rest.foldl combine_step acc).left = r.left) ∧
    ((rest.foldl combine_step acc).top = acc.top ∨
      ∃ r ∈ rest, (rest.foldl combine_step acc).top = r.top) ∧
    ((rest.foldl combine_step acc).right = acc.right ∨
      ∃ r ∈ rest, (rest.foldl combine_step acc).right = r.right) ∧
    ((rest.foldl combine_step acc).bottom = acc.bottom ∨
      ∃ r ∈ rest, (rest.foldl combine_step acc).bottom = r.bottom) := by
  induction rest generalizing acc with
  | nil => simp
  | cons a rest ih =>
    obtain ⟨h1, h2, h3, h4⟩ := ih (combine_step acc a)
    have e1 : (combine_step acc a).left = acc.left ∨ (combine_step acc a).left = a.left := by
      simp only [combine_step, VALUE_MIN]; split <;> simp
    have e2 : (combine_step acc a).top = acc.top ∨ (combine_step acc a).top = a.top := by
      simp only [combine_step, VALUE_MIN]; split <;> simp
    have e3 : (combine_step acc a).right = acc.right ∨ (combine_step acc a).right = a.right := by
      simp only [combine_step, VALUE_MAX]; split <;> simp
    have e4 : (combine_step acc a).bottom = acc.bottom ∨
        (combine_step acc a).bottom = a.bottom := by
      simp only [combine_step, VALUE_MAX]; split <;> simp
    simp only [List.foldl_cons, List.mem_cons, exists_eq_or_imp]
    refine ⟨?_, ?_, ?_, ?_⟩
    · rcases h1 with h | h
      · rcases e1 with e | e
        · left; rw [h, e]
        · right; left; rw [h, e]
      · right; right; exact h
    · rcases h2 with h | h
      · rcases e2 with e | e
        · left; rw [h, e]
        · right; left; rw [h, e]
      · right; right; exact h
    · rcases h3 with h | h
      · rcases e3 with e | e
        · left; rw [h, e]
        · right; left; rw [h, e]
      · right; right; exact h
    · rcases h4 with h | h
      · rcases e4 with e | e
        · left; rw [h, e]
        · right; left; rw [h, e]
      · right; right; exact h

theorem combine_rect_cons (r0 : Rect) (rest : List Rect) :
    combine_rect (r0 :: rest) = rest.foldl combine_step r0 := by
  cases r0
  rfl

theorem draw_rect_clamp_eq (w h t : Int) (r : Rect) :
    draw_rect_clamp w h t r =
      { left := if r.left < 0 then 0 else r.left
        top := if r.top < 0 then 0 else r.top
        right := if r.right > w - t then w - t else r.right
        bottom := if r.bottom > h - t then h - t else r.bottom } := by
  simp only [draw_rect_clamp]
  split_ifs <;> rfl

theorem duartion_ms_eq_of_lt (timeval clock : Int)
    (hlt : ((timeval - clock).natAbs : Int) < 2147483648000) :
    duartion_ms timeval clock = (((timeval - clock).natAbs / 1000 : Nat) : Int) := by
  unfold duartion_ms narrow32
  rw [Int.natAbs_tdiv]
  show ((((timeval - clock).natAbs / (1000 : Int).natAbs : Nat) : Int) + 2147483648)
    % 4294967296 - 2147483648 = _
  have h1000 : (1000 : Int).natAbs = 1000 := rfl
  rw [h1000]
  omega

theorem duartion_ms_gt_of_range (timeval clock : Int)
    (hge : 134000 ≤ ((timeval - clock).natAbs : Int))
    (hlt : ((timeval - clock).natAbs : Int) < 2147483648000) :
    133 < duartion_ms timeval clock := by
  rw [duartion_ms_eq_of_lt timeval clock hlt]
  omega

theorem duartion_ms_le_of_lt (timeval clock : Int)
    (hlt : ((timeval - clock).natAbs : Int) < 134000) :
    duartion_ms timeval clock ≤ 133 := by
  rw [duartion_ms_eq_of_lt timeval clock (by omega)]
  omega

theorem Process_stale (malloc_ok : Int → Bool) (self : DrawFilter) (src out : ImageBuffer)
    (q : List (List RknnResult)) (first : RknnResult) (more : List RknnResult)
    (hsrc : src.type = MediaType.Image) (hout : out.type = MediaType.Image)
    (hq : self.nn_results_list_ = q ++ [first :: more])
    (hage : 133 < duartion_ms first.timeval src.atomic_clock) :
    Process malloc_ok self (some src) (some out) =
      some { ret := 0, filter := { self with nn_results_list_ := [] },
             output := some src, hw := ⟨[], []⟩ } := by
  have hne : self.nn_results_list_.isEmpty = false := by
    rw [hq]; cases q <;> rfl
  have hev : evict self.nn_results_list_ = [first :: more] := by
    rw [hq]; exact evict_append_singleton _ _
  simp only [Process, hsrc, hout, hne, hev]
  simp [hage]

theorem Process_fresh (malloc_ok : Int → Bool) (self : DrawFilter) (src out : ImageBuffer)
    (q : List (List RknnResult)) (first : RknnResult) (more : List RknnResult)
    (hsrc : src.type = MediaType.Image) (hout : out.type = MediaType.Image)
    (hq : self.nn_results_list_ = q ++ [first :: more])
    (hage : duartion_ms first.timeval src.atomic_clock ≤ 133) :
    Process malloc_ok self (some src) (some out) =
      some (drawOutcome malloc_ok self src (first :: more)) := by
  have hne : self.nn_results_list_.isEmpty = false := by
    rw [hq]; cases q <;> rfl
  have hev : evict self.nn_results_list_ = [first :: more] := by
    rw [hq]; exact evict_append_singleton _ _
  have hage2 : ¬ 133 < duartion_ms first.timeval src.atomic_clock := by omega
  simp only [Process, hsrc, hout, hne, hev, drawOutcome]
  simp only [hage2]
  by_cases hhw : self.handler_.isSome = true ∧ self.need_hw_draw_ = true
  · simp [hhw]
  · simp [hhw]

theorem Process_queue_length (malloc_ok : Int → Bool) (self : DrawFilter)
    (src out : ImageBuffer) (r : ProcessResult)
    (hsrc : src.type = MediaType.Image) (hout : out.type = MediaType.Image)
    (hr : Process malloc_ok self (some src) (some out) = some r) :
    r.filter.nn_results_list_.length ≤ 1 := by
  have hlen := evict_length_le_one self.nn_results_list_
  simp only [Process, hsrc, hout] at hr
  by_cases hne : self.nn_results_list_.isEmpty = true
  · simp only [hne] at hr
    simp at hr
    subst hr
    have : self.nn_results_list_ = [] := List.isEmpty_iff.mp hne
    simp [this]
  · simp only [hne] at hr
    cases hev : evict self.nn_results_list_ with
    | nil => simp [hev] at hr
    | cons b rest =>
      rw [hev] at hlen
      have hrest : rest = [] := by
        cases rest with
        | nil => rfl
        | cons c rest => simp at hlen
      subst hrest
      cases b with
      | nil => simp [hev] at hr
      | cons first more =>
        simp only [hev] at hr
        simp at hr
        split_ifs at hr <;> (simp at hr; subst hr; simp)

theorem Process_returns_iff (malloc_ok : Int → Bool) (self : DrawFilter)
    (src out : ImageBuffer)
    (hsrc : src.type = MediaType.Image) (hout : out.type = MediaType.Image) :
    (Process malloc_ok self (some src) (some out)).isSome = true ↔
      evict self.nn_results_list_ ≠ [[]] := by
  have hlen := evict_length_le_one self.nn_results_list_
  simp only [Process, hsrc, hout]
  by_cases hne : self.nn_results_list_.isEmpty = true
  · have : self.nn_results_list_ = [] := List.isEmpty_iff.mp hne
    simp [this, evict]
  · simp only [hne]
    cases hev : evict self.nn_results_list_ with
    | nil =>
      exfalso
      revert hev hne
      cases self.nn_results_list_ with
      | nil => simp
      | cons a q =>
        intro _ hev
        have := evict_append_singleton (a :: q).dropLast ((a :: q).getLast (by simp))
        rw [List.dropLast_append_getLast] at this
        rw [this] at hev
        simp at hev
    | cons b rest =>
      rw [hev] at hlen
      have hrest : rest = [] := by
        cases rest with
        | nil => rfl
        | cons c rest => simp at hlen
      subst hrest
      cases b with
      | nil => simp
      | cons first more =>
        simp
        split_ifs <;> simp

theorem UPALIGNTO16_dvd (v : Int) : (16 : Int) ∣ UPALIGNTO16 v :=
  Dvd.intro_left _ rfl

theorem DOWNALIGNTO16_dvd (v : Int) : (16 : Int) ∣ DOWNALIGNTO16 v :=
  Dvd.intro_left _ rfl

theorem combine_aligned_dvd (nn_result : List RknnResult) :
    (16 : Int) ∣ (combine_rect (align_rects nn_result)).left ∧
    (16 : Int) ∣ (combine_rect (align_rects nn_result)).top ∧
    (16 : Int) ∣ (combine_rect (align_rects nn_result)).right ∧
    (16 : Int) ∣ (combine_rect (align_rects nn_result)).bottom := by
  cases nn_result with
  | nil => simp [align_rects, combine_rect]
  | cons a rest =>
    have hmem : ∀ r ∈ align_rects (a :: rest),
        (16 : Int) ∣ r.left ∧ (16 : Int) ∣ r.top ∧ (16 : Int) ∣ r.right ∧ (16 : Int) ∣ r.bottom := by
      intro r hr
      simp only [align_rects, List.mem_map] at hr
      obtain ⟨x, _, rfl⟩ := hr
      exact ⟨UPALIGNTO16_dvd _, UPALIGNTO16_dvd _, DOWNALIGNTO16_dvd _, DOWNALIGNTO16_dvd _⟩
    have hcons : align_rects (a :: rest) = align_rect a :: align_rects rest := rfl
    obtain ⟨a1, a2, a3, a4⟩ := combine_fold_attained (align_rects rest) (align_rect a)
    have h0 := hmem (align_rect a) (by rw [hcons]; exact List.mem_cons_self _ _)
    have hrest : ∀ r ∈ align_rects rest,
        (16 : Int) ∣ r.left ∧ (16 : Int) ∣ r.top ∧ (16 : Int) ∣ r.right ∧ (16 : Int) ∣ r.bottom :=
      fun r hr => hmem r (by rw [hcons]; exact List.mem_cons_of_mem _ hr)
    rw [hcons, combine_rect_cons]
    refine ⟨?_, ?_, ?_, ?_⟩
    · rcases a1 with h | ⟨r, hr, h⟩
      · rw [h]; exact h0.1
      · rw [h]; exact (hrest r hr).1
    · rcases a2 with h | ⟨r, hr, h⟩
      · rw [h]; exact h0.2.1
      · rw [h]; exact (hrest r hr).2.1
    · rcases a3 with h | ⟨r, hr, h⟩
      · rw [h]; exact h0.2.2.1
      · rw [h]; exact (hrest r hr).2.2.1
    · rcases a4 with h | ⟨r, hr, h⟩
      · rw [h]; exact h0.2.2.2
      · rw [h]; exact (hrest r hr).2.2.2

theorem hw_descriptor_dvd (nn_result : List RknnResult) :
    (16 : Int) ∣ (hw_descriptor nn_result).pos_x ∧ (16 : Int) ∣ (hw_descriptor nn_result).pos_y ∧
    (16 : Int) ∣ (hw_descriptor nn_result).width ∧
    (16 : Int) ∣ (hw_descriptor nn_result).height := by
  obtain ⟨h1, h2, h3, h4⟩ := combine_aligned_dvd nn_result
  exact ⟨h1, h2, dvd_sub h3 h1, dvd_sub h4 h2⟩

theorem DoHwDraw_errors (malloc_ok : Int → Bool) (thick : Int) (nn_result : List RknnResult) :
    (DoHwDraw malloc_ok thick nn_result).errors = [] := by
  obtain ⟨_, _, hw, hh⟩ := hw_descriptor_dvd nn_result
  have hw0 := Int.tmod_eq_zero_of_dvd hw
  have hh0 := Int.tmod_eq_zero_of_dvd hh
  unfold DoHwDraw
  simp only []
  split_ifs <;> first | rfl | simp [DoHwDrawRect, hw0, hh0]

theorem DoHwDraw_controls_of_alloc (malloc_ok : Int → Bool) (thick : Int)
    (nn_result : List RknnResult)
    (hm : malloc_ok ((hw_descriptor nn_result).width * (hw_descriptor nn_result).height) = true) :
    ∃ c, (DoHwDraw malloc_ok thick nn_result).controls = [c] ∧
      c.pos_x = (hw_descriptor nn_result).pos_x ∧ c.pos_y = (hw_descriptor nn_result).pos_y ∧
      c.width = (hw_descriptor nn_result).width ∧ c.height = (hw_descriptor nn_result).height ∧
      c.enable = 1 ∧ c.region_id = 7 := by
  obtain ⟨_, _, hw, hh⟩ := hw_descriptor_dvd nn_result
  have hw0 := Int.tmod_eq_zero_of_dvd hw
  have hh0 := Int.tmod_eq_zero_of_dvd hh
  unfold DoHwDraw
  simp only [hm]
  simp only [DoHwDrawRect, hw0, hh0]
  simp only [ne_eq, not_true_eq_false, or_self, and_false, if_false, one_ne_zero,
    not_false_eq_true, if_true]
  exact ⟨_, rfl, rfl, rfl, rfl, rfl, rfl, rfl⟩

theorem DoHwDraw_controls_of_no_alloc (malloc_ok : Int → Bool) (thick : Int)
    (nn_result : List RknnResult)
    (hm : malloc_ok ((hw_descriptor nn_result).width * (hw_descriptor nn_result).height) = false) :
    (DoHwDraw malloc_ok thick nn_result).controls = [] := by
  unfold DoHwDraw
  simp [hm]

theorem mem_upTo (lo hi x : Int) : x ∈ upTo lo hi ↔ lo ≤ x ∧ x ≤ hi := by
  unfold upTo
  simp only [List.mem_map, List.mem_range]
  constructor
  · rintro ⟨i, hlt, rfl⟩
    omega
  · rintro ⟨h1, h2⟩
    exact ⟨(x - lo).toNat, by omega, by omega⟩

theorem foldl_invariant {α β : Type} (P : β → Prop) (f : β → α → β) (l : List α) (b : β)
    (h0 : P b) (hstep : ∀ b a, a ∈ l → P b → P (f b a)) : P (l.foldl f b) := by
  induction l generalizing b with
  | nil => exact h0
  | cons a l ih =>
    rw [List.foldl_cons]
    exact ih (f b a) (hstep b a (List.mem_cons_self _ _) h0)
      (fun b x hx hb => hstep b x (List.mem_cons_of_mem _ hx) hb)

theorem YUV_PIXEL_RED_channels :
    ((YUV_PIXEL_RED >>> 16) &&& 0xFF) % 256 = 0x4C ∧
    ((YUV_PIXEL_RED >>> 8) &&& 0xFF) % 256 = 0x54 ∧
    ((YUV_PIXEL_RED >>> 0) &&& 0xFF) % 256 = 0xFF := by
  decide

/-- Every byte after `draw_nv12_rect` (with the red colour, on a rectangle with
non-negative left edge) is the byte before, or a colour sample of a pixel of
the outline band of the rectangle. -/
theorem draw_nv12_rect_changes (data : Bytes) (w h t : Int) (R : Rect) (hleft : 0 ≤ R.left)
    (o : Int) :
    draw_nv12_rect data w h R t YUV_PIXEL_RED o = data o ∨
    ∃ j k, inOutlineBand R t j k ∧
      isColourSample w h j k o (draw_nv12_rect data w h R t YUV_PIXEL_RED o) := by
  obtain ⟨hy, hu, hv⟩ := YUV_PIXEL_RED_channels
  simp only [draw_nv12_rect]
  refine foldl_invariant
    (fun d : Bytes => d o = data o ∨ ∃ j k, inOutlineBand R t j k ∧ isColourSample w h j k o (d o))
    _ _ data (Or.inl rfl) ?_
  intro d j hj hd
  refine foldl_invariant
    (fun d : Bytes => d o = data o ∨ ∃ j k, inOutlineBand R t j k ∧ isColourSample w h j k o (d o))
    _ _ d hd ?_
  intro d k hk hd
  rw [mem_upTo] at hj hk
  unfold nv12_pixel
  by_cases hband : nv12_band R.left R.top (R.right - R.left) (R.bottom - R.top) t j k = true
  · simp only [hband, if_true]
    have hin : inOutlineBand R t j k := by
      simp only [nv12_band, Bool.or_eq_true, decide_eq_true_eq] at hband
      refine ⟨by omega, ?_⟩
      omega
    have hk0 : 0 ≤ k := by omega
    have hshift : j >>> (1 : Nat) = j / 2 := by
      rw [Int.shiftRight_eq_div_pow]; rfl
    have hmod : Int.tmod k 2 = k % 2 := Int.tmod_eq_emod hk0 (by decide)
    rw [hshift, hmod]
    simp only [poke]
    by_cases h3 : o = j / 2 * w + k - k % 2 + w * h + 1
    · right
      refine ⟨j, k, hin, Or.inr (Or.inr ⟨h3, ?_⟩)⟩
      rw [if_pos h3]; exact hv
    · rw [if_neg h3]
      by_cases h2 : o = j / 2 * w + k - k % 2 + w * h
      · right
        refine ⟨j, k, hin, Or.inr (Or.inl ⟨h2, ?_⟩)⟩
        rw [if_pos h2]; exact hu
      · rw [if_neg h2]
        by_cases h1 : o = j * w + k
        · right
          refine ⟨j, k, hin, Or.inl ⟨h1, ?_⟩⟩
          rw [if_pos h1]; exact hy
        · rw [if_neg h1]
          exact hd
  · simp only [hband]
    exact hd

theorem draw_rect_clamp_id (w h t : Int) (R : Rect)
    (hl : 0 ≤ R.left) (hr : R.right ≤ w - t) (ht : 0 ≤ R.top) (hb : R.bottom ≤ h - t) :
    draw_rect_clamp w h t R = R := by
  rw [draw_rect_clamp_eq]
  have h1 : ¬ R.left < 0 := by omega
  have h2 : ¬ R.top < 0 := by omega
  have h3 : ¬ R.right > w - t := by omega
  have h4 : ¬ R.bottom > h - t := by omega
  simp only [h1, h2, h3, h4, if_false]

theorem Process_empty_queue (malloc_ok : Int → Bool) (self : DrawFilter) (src out : ImageBuffer)
    (hsrc : src.type = MediaType.Image) (hout : out.type = MediaType.Image)
    (hq : self.nn_results_list_ = []) :
    Process malloc_ok self (some src) (some out) =
      some { ret := 0, filter := self, output := some src, hw := ⟨[], []⟩ } := by
  simp [Process, hsrc, hout, hq]

theorem Process_empty_batch (malloc_ok : Int → Bool) (self : DrawFilter) (src out : ImageBuffer)
    (q : List (List RknnResult))
    (hsrc : src.type = MediaType.Image) (hout : out.type = MediaType.Image)
    (hq : self.nn_results_list_ = q ++ [[]]) :
    Process malloc_ok self (some src) (some out) = none := by
  have hne : self.nn_results_list_.isEmpty = false := by
    rw [hq]; cases q <;> rfl
  have hev : evict self.nn_results_list_ = [[]] := by
    rw [hq]; exact evict_append_singleton _ _
  simp [Process, hsrc, hout, hne, hev]

theorem queue_nil_or_append (q : List (List RknnResult)) :
    q = [] ∨ ∃ q0 b, q = q0 ++ [b] := by
  rcases List.eq_nil_or_concat q with h | ⟨q0, b, h⟩
  · exact Or.inl h
  · exact Or.inr ⟨q0, b, by simpa using h⟩

theorem batchOf_eq_nil (p : Int × Option (Nat → RknnResult)) (h : p.1 ≤ 0 ∨ p.2 = none) :
    batchOf p = [] := by
  unfold batchOf infos_list
  rcases h with h | h
  · cases hp : p.2 with
    | none => rfl
    | some infos =>
      have : p.1.toNat = 0 := by omega
      simp [this]
  · simp [h]

theorem mem_upToExcl (lo hi x : Int) : x ∈ upToExcl lo hi ↔ lo ≤ x ∧ x < hi := by
  unfold upToExcl
  simp only [List.mem_map, List.mem_range]
  constructor
  · rintro ⟨i, hlt, rfl⟩
    omega
  · rintro ⟨h1, h2⟩
    exact ⟨(x - lo).toNat, by omega, by omega⟩

theorem foldl_rows_cols {α β γ : Type} (g : α → γ → β → γ) (rows : List α) (cols : List β)
    (d : γ) :
    rows.foldl (fun d j => cols.foldl (g j) d) d =
      (rows.flatMap (fun j => cols.map (fun k => (j, k)))).foldl (fun d p => g p.1 d p.2) d := by
  induction rows generalizing d with
  | nil => rfl
  | cons j rows ih =>
    rw [List.foldl_cons, List.flatMap_cons, List.foldl_append, List.foldl_map]
    exact ih _

theorem foldl_poke_spec {α : Type} (l : List α) (c : α → Bool) (off : α → Int) (v : Nat)
    (d : Bytes) (o : Int) :
    ((∃ a ∈ l, c a = true ∧ o = off a) →
      (l.foldl (fun d a => if c a then poke d (off a) v else d) d) o = v % 256) ∧
    ((¬ ∃ a ∈ l, c a = true ∧ o = off a) →
      (l.foldl (fun d a => if c a then poke d (off a) v else d) d) o = d o) := by
  induction l generalizing d with
  | nil => simp
  | cons a l ih =>
    rw [List.foldl_cons]
    obtain ⟨ih1, ih2⟩ := ih (if c a then poke d (off a) v else d)
    by_cases hl : ∃ b ∈ l, c b = true ∧ o = off b
    · refine ⟨fun _ => ih1 hl, fun hno => ?_⟩
      exfalso
      obtain ⟨b, hb, hcb⟩ := hl
      exact hno ⟨b, List.mem_cons_of_mem _ hb, hcb⟩
    · rw [ih2 hl]
      by_cases ha : c a = true ∧ o = off a
      · refine ⟨fun _ => ?_, fun hno => ?_⟩
        · rw [if_pos ha.1]
          simp [poke, ha.2]
        · exfalso
          exact hno ⟨a, List.mem_cons_self _ _, ha⟩
      · refine ⟨fun hex => ?_, fun _ => ?_⟩
        · exfalso
          obtain ⟨b, hb, hcb⟩ := hex
          rcases List.mem_cons.mp hb with rfl | hb
          · exact ha hcb
          · exact hl ⟨b, hb, hcb⟩
        · by_cases hc : c a = true
          · rw [if_pos hc]
            have : o ≠ off a := fun h => ha ⟨hc, h⟩
            simp [poke, this]
          · rw [if_neg hc]

theorem hw_band_iff (rect : Rect) (t j k : Int) :
    hw_band rect t j k = true ↔ strictBandTest rect t j k := by
  simp only [hw_band, strictBandTest, Bool.or_eq_true, decide_eq_true_eq, or_assoc]

theorem nv12_band_iff (rect : Rect) (t j k : Int) :
    nv12_band rect.left rect.top (rect.right - rect.left) (rect.bottom - rect.top) t j k = true ↔
      swBandTest rect t j k := by
  simp only [nv12_band, swBandTest, Bool.or_eq_true, decide_eq_true_eq, or_assoc]
  constructor <;> (intro h; omega)

theorem hw_draw_rect_spec (data : Bytes) (img_w : Int) (rect : Rect) (thick : Int) (index : Nat)
    (o : Int) :
    (hwWrites img_w rect thick o → hw_draw_rect data img_w rect thick index o = index % 256) ∧
    (¬ hwWrites img_w rect thick o → hw_draw_rect data img_w rect thick index o = data o) := by
  have hiff : hwWrites img_w rect thick o ↔
      ∃ a ∈ (upToExcl rect.top rect.bottom).flatMap
          (fun j => (upToExcl rect.left rect.right).map (fun k => (j, k))),
        hw_band rect thick a.1 a.2 = true ∧ o = a.1 * img_w + a.2 := by
    unfold hwWrites
    constructor
    · rintro ⟨j, k, h1, h2, h3, h4, hb, ho⟩
      refine ⟨(j, k), ?_, (hw_band_iff _ _ _ _).mpr hb, ho⟩
      rw [List.mem_flatMap]
      exact ⟨j, (mem_upToExcl _ _ _).mpr ⟨h1, h2⟩,
        List.mem_map.mpr ⟨k, (mem_upToExcl _ _ _).mpr ⟨h3, h4⟩, rfl⟩⟩
    · rintro ⟨⟨j, k⟩, hmem, hb, ho⟩
      rw [List.mem_flatMap] at hmem
      obtain ⟨j0, hj0, hk0⟩ := hmem
      rw [List.mem_map] at hk0
      obtain ⟨k0, hk0, heq⟩ := hk0
      cases heq
      rw [mem_upToExcl] at hj0 hk0
      exact ⟨j, k, hj0.1, hj0.2, hk0.1, hk0.2, (hw_band_iff _ _ _ _).mp hb, ho⟩
  have hfold : hw_draw_rect data img_w rect thick index =
      ((upToExcl rect.top rect.bottom).flatMap
          (fun j => (upToExcl rect.left rect.right).map (fun k => (j, k)))).foldl
        (fun d (a : Int × Int) =>
          if hw_band rect thick a.1 a.2 then poke d (a.1 * img_w + a.2) index else d) data := by
    unfold hw_draw_rect
    exact foldl_rows_cols
      (fun j d k => if hw_band rect thick j k then poke d (j * img_w + k) index else d) _ _ data
  rw [hfold, hiff]
  exact foldl_poke_spec _ (fun a : Int × Int => hw_band rect thick a.1 a.2)
    (fun a : Int × Int => a.1 * img_w + a.2) index data o

theorem offset_in_bounds (W H j k : Int) (hk0 : 0 ≤ k) (hk : k < W) (hj0 : 0 ≤ j) (hj : j < H) :
    0 ≤ j * W + k ∧ j * W + k < W * H := by
  have hW : 0 ≤ W := by omega
  have h1 : 0 ≤ j * W := Int.mul_nonneg hj0 hW
  have h2 : j * W ≤ (H - 1) * W := Int.mul_le_mul_of_nonneg_right (by omega) hW
  have h3 : (H - 1) * W = W * H - W := by ring
  constructor <;> omega

theorem foldl_establish {α β : Type} (Q : β → Prop) (f : β → α → β) (l : List α) (b : β)
    (a0 : α) (hmem : a0 ∈ l) (hpres : ∀ b a, a ∈ l → Q b → Q (f b a))
    (hest : ∀ b, Q (f b a0)) : Q (l.foldl f b) := by
  induction l generalizing b with
  | nil => simp at hmem
  | cons a l ih =>
    rw [List.foldl_cons]
    rcases List.mem_cons.mp hmem with rfl | hin
    · exact foldl_invariant Q f l _ (hest b)
        (fun b x hx hb => hpres b x (List.mem_cons_of_mem _ hx) hb)
    · exact ih (f b a) hin (fun b x hx hb => hpres b x (List.mem_cons_of_mem _ hx) hb)

/-- One round of the inner loop of `draw_nv12_rect` at a pixel of the loop
ranges: the byte at `o` keeps its value or becomes a colour sample of that
pixel, which then lies in the outline band; and if the pixel lies in the band
and `o` is one of its three offsets, the byte is a colour sample of it. -/
theorem nv12_pixel_sample (w h t : Int) (R : Rect) (y u v : Nat)
    (hy : y % 256 = 0x4C) (hu : u % 256 = 0x54) (hv : v % 256 = 0xFF)
    (hleft : 0 ≤ R.left) (d : Bytes) (j k o : Int)
    (hj : R.top ≤ j ∧ j ≤ R.top + (R.bottom - R.top))
    (hk : R.left ≤ k ∧ k ≤ R.left + (R.right - R.left)) :
    (nv12_pixel w (w * h) R.left R.top (R.right - R.left) (R.bottom - R.top) t y u v j d k o
        = d o ∨
      (inOutlineBand R t j k ∧ isColourSample w h j k o
        (nv12_pixel w (w * h) R.left R.top (R.right - R.left) (R.bottom - R.top) t y u v j d k
          o))) ∧
    (inOutlineBand R t j k →
      (o = j * w + k ∨ o = j / 2 * w + k - k % 2 + w * h ∨
        o = j / 2 * w + k - k % 2 + w * h + 1) →
      isColourSample w h j k o
        (nv12_pixel w (w * h) R.left R.top (R.right - R.left) (R.bottom - R.top) t y u v j d k
          o)) := by
  have hk0 : 0 ≤ k := by omega
  have hshift : j >>> (1 : Nat) = j / 2 := by
    rw [Int.shiftRight_eq_div_pow]; rfl
  have hmod : Int.tmod k 2 = k % 2 := Int.tmod_eq_emod hk0 (by decide)
  have hbandiff : nv12_band R.left R.top (R.right - R.left) (R.bottom - R.top) t j k = true ↔
      inOutlineBand R t j k := by
    simp only [nv12_band, Bool.or_eq_true, decide_eq_true_eq, inOutlineBand]
    constructor
    · intro hb
      exact ⟨by omega, by omega⟩
    · rintro ⟨_, hb⟩
      omega
  unfold nv12_pixel
  by_cases hband : nv12_band R.left R.top (R.right - R.left) (R.bottom - R.top) t j k = true
  · have hin := hbandiff.mp hband
    simp only [hband, if_true]
    rw [hshift, hmod]
    simp only [poke]
    have key : (o = j * w + k ∨ o = j / 2 * w + k - k % 2 + w * h ∨
          o = j / 2 * w + k - k % 2 + w * h + 1) →
        isColourSample w h j k o
          (if o = j / 2 * w + k - k % 2 + w * h + 1 then v % 256
            else if o = j / 2 * w + k - k % 2 + w * h then u % 256
            else if o = j * w + k then y % 256 else d o) := by
      intro ho
      by_cases h3 : o = j / 2 * w + k - k % 2 + w * h + 1
      · rw [if_pos h3]
        exact Or.inr (Or.inr ⟨h3, hv⟩)
      · rw [if_neg h3]
        by_cases h2 : o = j / 2 * w + k - k % 2 + w * h
        · rw [if_pos h2]
          exact Or.inr (Or.inl ⟨h2, hu⟩)
        · rw [if_neg h2]
          have h1 : o = j * w + k := by
            rcases ho with h | h | h
            · exact h
            · exact absurd h h2
            · exact absurd h h3
          rw [if_pos h1]
          exact Or.inl ⟨h1, hy⟩
    refine ⟨?_, fun _ ho => key ho⟩
    by_cases ho : o = j * w + k ∨ o = j / 2 * w + k - k % 2 + w * h ∨
        o = j / 2 * w + k - k % 2 + w * h + 1
    · exact Or.inr ⟨hin, key ho⟩
    · left
      have h1 : ¬ o = j * w + k := fun h => ho (Or.inl h)
      have h2 : ¬ o = j / 2 * w + k - k % 2 + w * h := fun h => ho (Or.inr (Or.inl h))
      have h3 : ¬ o = j / 2 * w + k - k % 2 + w * h + 1 := fun h => ho (Or.inr (Or.inr h))
      rw [if_neg h3, if_neg h2, if_neg h1]
  · have hnin : ¬ inOutlineBand R t j k := fun h => hband (hbandiff.mpr h)
    simp only [hband]
    exact ⟨Or.inl rfl, fun hin => absurd hin hnin⟩

/-- After `draw_nv12_rect` (red, rectangle with non-negative left edge) every
offset of a sample of a band pixel holds a colour sample of some band pixel. -/
theorem draw_nv12_rect_written (data : Bytes) (w h t : Int) (R : Rect) (hleft : 0 ≤ R.left)
    (o j0 k0 : Int) (hband : inOutlineBand R t j0 k0)
    (ho : o = j0 * w + k0 ∨ o = j0 / 2 * w + k0 - k0 % 2 + w * h ∨
      o = j0 / 2 * w + k0 - k0 % 2 + w * h + 1) :
    ∃ j k, inOutlineBand R t j k ∧
      isColourSample w h j k o (draw_nv12_rect data w h R t YUV_PIXEL_RED o) := by
  obtain ⟨hy, hu, hv⟩ := YUV_PIXEL_RED_channels
  have hj0 : j0 ∈ upTo R.top (R.top + (R.bottom - R.top)) := by
    rw [mem_upTo]; unfold inOutlineBand at hband; omega
  have hk0 : k0 ∈ upTo R.left (R.left + (R.right - R.left)) := by
    rw [mem_upTo]; unfold inOutlineBand at hband; omega
  have hpres : ∀ (d : Bytes) (j k : Int), j ∈ upTo R.top (R.top + (R.bottom - R.top)) →
      k ∈ upTo R.left (R.left + (R.right - R.left)) →
      (∃ j k, inOutlineBand R t j k ∧ isColourSample w h j k o (d o)) →
      ∃ j' k', inOutlineBand R t j' k' ∧ isColourSample w h j' k' o
        (nv12_pixel w (w * h) R.left R.top (R.right - R.left) (R.bottom - R.top) t
          ((YUV_PIXEL_RED >>> 16) &&& 0xFF) ((YUV_PIXEL_RED >>> 8) &&& 0xFF)
          ((YUV_PIXEL_RED >>> 0) &&& 0xFF) j d k o) := by
    intro d j k hj hk hq
    rw [mem_upTo] at hj hk
    rcases (nv12_pixel_sample w h t R _ _ _ hy hu hv hleft d j k o hj hk).1 with h | h
    · rw [h]; exact hq
    · exact ⟨j, k, h⟩
  simp only [draw_nv12_rect]
  refine foldl_establish
    (fun d : Bytes => ∃ j k, inOutlineBand R t j k ∧ isColourSample w h j k o (d o))
    _ _ data j0 hj0 ?_ ?_
  · intro d j hj hq
    exact foldl_invariant
      (fun d : Bytes => ∃ j k, inOutlineBand R t j k ∧ isColourSample w h j k o (d o))
      _ _ d hq (fun d k hk hq => hpres d j k hj hk hq)
  · intro d
    refine foldl_establish
      (fun d : Bytes => ∃ j k, inOutlineBand R t j k ∧ isColourSample w h j k o (d o))
      _ _ d k0 hk0 (fun d k hk hq => hpres d j0 k hj0 hk hq) ?_
    intro d
    rw [mem_upTo] at hj0 hk0
    exact ⟨j0, k0, hband,
      (nv12_pixel_sample w h t R _ _ _ hy hu hv hleft d j0 k0 o hj0 hk0).2 hband ho⟩

theorem luma_offset_injective (w j k j' k' : Int) (hk0 : 0 ≤ k) (hk : k < w) (hk0' : 0 ≤ k')
    (hk' : k' < w) (heq : j * w + k = j' * w + k') : j = j' ∧ k = k' := by
  have hj : j = j' := by
    rcases lt_trichotomy j j' with hlt | heq' | hgt
    · exfalso
      have h1 : (j + 1) * w ≤ j' * w := Int.mul_le_mul_of_nonneg_right (by omega) (by omega)
      have h2 : (j + 1) * w = j * w + w := by ring
      omega
    · exact heq'
    · exfalso
      have h1 : (j' + 1) * w ≤ j * w := Int.mul_le_mul_of_nonneg_right (by omega) (by omega)
      have h2 : (j' + 1) * w = j' * w + w := by ring
      omega
  subst hj
  exact ⟨rfl, by omega⟩

theorem band_pixel_facts (w h t : Int) (R : Rect) (hl : 0 ≤ R.left) (hr : R.right < w)
    (ht : 0 ≤ R.top) (hb : R.bottom < h) (hw : w % 2 = 0) (j k : Int)
    (hband : inOutlineBand R t j k) :
    (0 ≤ j * w + k ∧ j * w + k < w * h) ∧ (0 ≤ j / 2 * w ∧ (j / 2 * w) % 2 = 0) ∧
    (0 ≤ j ∧ j < h ∧ 0 ≤ k ∧ k < w) := by
  unfold inOutlineBand at hband
  have hj0 : 0 ≤ j := by omega
  have hj : j < h := by omega
  have hk0 : 0 ≤ k := by omega
  have hk : k < w := by omega
  have hw0 : 0 ≤ w := by omega
  refine ⟨offset_in_bounds w h j k hk0 hk hj0 hj, ⟨?_, ?_⟩, hj0, hj, hk0, hk⟩
  · exact Int.mul_nonneg (by omega) hw0
  · have hdvd : (2 : Int) ∣ w := Int.dvd_of_emod_eq_zero hw
    exact Int.emod_eq_zero_of_dvd (Dvd.dvd.mul_left hdvd _)

/-- Coverage of `draw_nv12_rect` for a rectangle inside an image of even
width: the samples of every band pixel hold the colour, and the luma byte of
every image pixel outside the band keeps its value. -/
theorem draw_nv12_rect_coverage (data : Bytes) (w h t : Int) (R : Rect)
    (hl : 0 ≤ R.left) (hr : R.right < w) (ht : 0 ≤ R.top) (hb : R.bottom < h)
    (hw : w % 2 = 0) :
    (∀ j k, inOutlineBand R t j k →
      draw_nv12_rect data w h R t YUV_PIXEL_RED (j * w + k) = 0x4C ∧
      draw_nv12_rect data w h R t YUV_PIXEL_RED (j / 2 * w + k - k % 2 + w * h) = 0x54 ∧
      draw_nv12_rect data w h R t YUV_PIXEL_RED (j / 2 * w + k - k % 2 + w * h + 1) = 0xFF) ∧
    (∀ j k, 0 ≤ j → j < h → 0 ≤ k → k < w → ¬ inOutlineBand R t j k →
      draw_nv12_rect data w h R t YUV_PIXEL_RED (j * w + k) = data (j * w + k)) := by
  constructor
  · intro j k hband
    obtain ⟨⟨f1, f2⟩, ⟨f3, f4⟩, _, _, f5, f6⟩ := band_pixel_facts w h t R hl hr ht hb hw j k hband
    refine ⟨?_, ?_, ?_⟩
    · obtain ⟨j', k', hband', hs⟩ :=
        draw_nv12_rect_written data w h t R hl (j * w + k) j k hband (Or.inl rfl)
      obtain ⟨⟨g1, g2⟩, ⟨g3, g4⟩, _, _, g5, g6⟩ :=
        band_pixel_facts w h t R hl hr ht hb hw j' k' hband'
      rcases hs with ⟨_, hval⟩ | ⟨ho, _⟩ | ⟨ho, _⟩
      · exact hval
      · omega
      · omega
    · obtain ⟨j', k', hband', hs⟩ :=
        draw_nv12_rect_written data w h t R hl (j / 2 * w + k - k % 2 + w * h) j k hband
          (Or.inr (Or.inl rfl))
      obtain ⟨⟨g1, g2⟩, ⟨g3, g4⟩, _, _, g5, g6⟩ :=
        band_pixel_facts w h t R hl hr ht hb hw j' k' hband'
      rcases hs with ⟨ho, _⟩ | ⟨_, hval⟩ | ⟨ho, _⟩
      · omega
      · exact hval
      · omega
    · obtain ⟨j', k', hband', hs⟩ :=
        draw_nv12_rect_written data w h t R hl (j / 2 * w + k - k % 2 + w * h + 1) j k hband
          (Or.inr (Or.inr rfl))
      obtain ⟨⟨g1, g2⟩, ⟨g3, g4⟩, _, _, g5, g6⟩ :=
        band_pixel_facts w h t R hl hr ht hb hw j' k' hband'
      rcases hs with ⟨ho, _⟩ | ⟨ho, _⟩ | ⟨_, hval⟩
      · omega
      · omega
      · exact hval
  · intro j k hj0 hj hk0 hk hnot
    have f := offset_in_bounds w h j k hk0 hk hj0 hj
    rcases draw_nv12_rect_changes data w h t R hl (j * w + k) with hsame | ⟨j', k', hband', hs⟩
    · exact hsame
    · exfalso
      obtain ⟨⟨g1, g2⟩, ⟨g3, g4⟩, _, _, g5, g6⟩ :=
        band_pixel_facts w h t R hl hr ht hb hw j' k' hband'
      rcases hs with ⟨ho, _⟩ | ⟨ho, _⟩ | ⟨ho, _⟩
      · obtain ⟨rfl, rfl⟩ := luma_offset_injective w j k j' k' hk0 hk g5 g6 ho
        exact hnot hband'
      · omega
      · omega

theorem nv12_size (w h : Int) (hh : h % 2 = 0) : w * h * 3 / 2 = w * h + h / 2 * w := by
  obtain ⟨m, rfl⟩ : ∃ m, h = 2 * m := ⟨h / 2, by omega⟩
  have h1 : 2 * m / 2 = m := by omega
  have h2 : w * (2 * m) * 3 = (w * (2 * m) + m * w) * 2 := by ring
  rw [h1, h2, Int.mul_ediv_cancel _ (by decide : (2 : Int) ≠ 0)]

/-- With a thickness of at least 1 and even width and height, every byte that
`draw_rect` changes lies inside the NV12 buffer of `w * h * 3 / 2` bytes. -/
theorem draw_rect_in_bounds (buffer : ImageBuffer) (rect : Rect) (t : Int) (ht : 1 ≤ t)
    (hw : buffer.info.width % 2 = 0) (hh : buffer.info.height % 2 = 0) (o : Int)
    (hchg : (draw_rect buffer rect t).data o ≠ buffer.data o) :
    0 ≤ o ∧ o < buffer.info.width * buffer.info.height * 3 / 2 := by
  rw [nv12_size _ _ hh]
  unfold draw_rect at hchg
  by_cases hfmt : buffer.info.pix_fmt = PixelFormat.PIX_FMT_NV12
  · simp only [hfmt, if_true] at hchg
    have hc := draw_rect_clamp_eq buffer.info.width buffer.info.height t rect
    have hl : 0 ≤ (draw_rect_clamp buffer.info.width buffer.info.height t rect).left := by
      rw [hc]; show 0 ≤ (if rect.left < 0 then 0 else rect.left); split_ifs <;> omega
    have htop : 0 ≤ (draw_rect_clamp buffer.info.width buffer.info.height t rect).top := by
      rw [hc]; show 0 ≤ (if rect.top < 0 then 0 else rect.top); split_ifs <;> omega
    have hr : (draw_rect_clamp buffer.info.width buffer.info.height t rect).right
        < buffer.info.width := by
      rw [hc]
      show (if rect.right > buffer.info.width - t then buffer.info.width - t else rect.right)
        < buffer.info.width
      split_ifs <;> omega
    have hb : (draw_rect_clamp buffer.info.width buffer.info.height t rect).bottom
        < buffer.info.height := by
      rw [hc]
      show (if rect.bottom > buffer.info.height - t then buffer.info.height - t
        else rect.bottom) < buffer.info.height
      split_ifs <;> omega
    rcases draw_nv12_rect_changes buffer.data buffer.info.width buffer.info.height t
        (draw_rect_clamp buffer.info.width buffer.info.height t rect) hl o with
      hsame | ⟨j, k, hband, hs⟩
    · exact absurd hsame hchg
    · obtain ⟨⟨g1, g2⟩, ⟨g3, _⟩, g5, g6, g7, g8⟩ :=
        band_pixel_facts _ _ t _ hl hr htop hb hw j k hband
      have hw0 : 0 ≤ buffer.info.width := by omega
      have h1 : j / 2 * buffer.info.width ≤ (buffer.info.height / 2 - 1) * buffer.info.width :=
        Int.mul_le_mul_of_nonneg_right (by omega) hw0
      have h2 : (buffer.info.height / 2 - 1) * buffer.info.width =
          buffer.info.height / 2 * buffer.info.width - buffer.info.width := by ring
      have h3 : 0 ≤ buffer.info.height / 2 * buffer.info.width :=
        Int.mul_nonneg (by omega) hw0
      rcases hs with ⟨ho, _⟩ | ⟨ho, _⟩ | ⟨ho, _⟩ <;> (constructor <;> omega)
  · simp only [hfmt, if_false] at hchg
    exact absurd rfl hchg

/-- Every byte that `draw_nv12_rect` changes, for a rectangle inside an image
of even width and height, lies inside the NV12 buffer of `w * h * 3 / 2`
bytes. -/
theorem draw_nv12_rect_in_bounds (data : Bytes) (w h t : Int) (R : Rect)
    (hl : 0 ≤ R.left) (hr : R.right < w) (ht : 0 ≤ R.top) (hb : R.bottom < h)
    (hw : w % 2 = 0) (hh : h % 2 = 0) (o : Int)
    (hchg : draw_nv12_rect data w h R t YUV_PIXEL_RED o ≠ data o) :
    0 ≤ o ∧ o < w * h * 3 / 2 := by
  rw [nv12_size _ _ hh]
  rcases draw_nv12_rect_changes data w h t R hl o with hsame | ⟨j, k, hband, hs⟩
  · exact absurd hsame hchg
  · obtain ⟨⟨g1, g2⟩, ⟨g3, _⟩, g5, g6, g7, g8⟩ :=
      band_pixel_facts w h t R hl hr ht hb hw j k hband
    have hw0 : 0 ≤ w := by omega
    have h1 : j / 2 * w ≤ (h / 2 - 1) * w :=
      Int.mul_le_mul_of_nonneg_right (by omega) hw0
    have h2 : (h / 2 - 1) * w = h / 2 * w - w := by ring
    have h3 : 0 ≤ h / 2 * w := Int.mul_nonneg (by omega) hw0
    rcases hs with ⟨ho, _⟩ | ⟨ho, _⟩ | ⟨ho, _⟩ <;> (constructor <;> omega)

/-- A byte that is no sample of a band pixel keeps its value under
`draw_nv12_rect`. -/
theorem draw_nv12_rect_frame (data : Bytes) (w h t : Int) (R : Rect) (hl : 0 ≤ R.left)
    (o : Int)
    (hno : ¬ ∃ j k, inOutlineBand R t j k ∧
      (o = j * w + k ∨ o = w * h + j / 2 * w + (k - k % 2) ∨
        o = w * h + j / 2 * w + (k - k % 2) + 1)) :
    draw_nv12_rect data w h R t YUV_PIXEL_RED o = data o := by
  rcases draw_nv12_rect_changes data w h t R hl o with hsame | ⟨j, k, hband, hs⟩
  · exact hsame
  · exfalso
    apply hno
    refine ⟨j, k, hband, ?_⟩
    have e1 : w * h + j / 2 * w + (k - k % 2) = j / 2 * w + k - k % 2 + w * h := by ring
    rw [e1]
    rcases hs with ⟨ho, _⟩ | ⟨ho, _⟩ | ⟨ho, _⟩
    · exact Or.inl ho
    · exact Or.inr (Or.inl ho)
    · exact Or.inr (Or.inr ho)

theorem evictTrace_pops (q : List (List RknnResult)) :
    (evictTrace q).count QueueEvent.pop + (evict q).length = q.length := by
  induction q with
  | nil => simp [evictTrace, evict]
  | cons a q ih =>
    cases q with
    | nil => simp [evictTrace, evict]
    | cons b rest =>
      simp only [evictTrace, evict, List.length_cons] at ih ⊢
      simp only [List.count_append] at ih ⊢
      have h4 : [QueueEvent.size, QueueEvent.lock, QueueEvent.pop, QueueEvent.unlock].count
          QueueEvent.pop = 1 := by decide
      omega

theorem ProcessTrace_head (self : DrawFilter) (src out : ImageBuffer)
    (hsrc : src.type = MediaType.Image) (hout : out.type = MediaType.Image) :
    ∃ rest, ProcessTrace self (some src) (some out) = QueueEvent.empty :: rest := by
  simp only [ProcessTrace, hsrc, hout]
  by_cases hne : self.nn_results_list_.isEmpty = true
  · exact ⟨[], by simp [hne]⟩
  · exact ⟨_, by simp only [hne]; simp; rfl⟩

/-- The trace agrees with `Process` on the pops: the `pop()` events of a call
account for the batches that leave the queue. -/
theorem ProcessTrace_pops (malloc_ok : Int → Bool) (self : DrawFilter) (src out : ImageBuffer)
    (r : ProcessResult)
    (hsrc : src.type = MediaType.Image) (hout : out.type = MediaType.Image)
    (hr : Process malloc_ok self (some src) (some out) = some r) :
    (ProcessTrace self (some src) (some out)).count QueueEvent.pop +
      r.filter.nn_results_list_.length = self.nn_results_list_.length := by
  have hcount := evictTrace_pops self.nn_results_list_
  rcases queue_nil_or_append self.nn_results_list_ with hq | ⟨q0, b, hq⟩
  · rw [Process_empty_queue malloc_ok self src out hsrc hout hq] at hr
    cases hr
    simp [ProcessTrace, hsrc, hout, hq]
  · have hne : self.nn_results_list_.isEmpty = false := by
      rw [hq]; cases q0 <;> rfl
    have hev : evict self.nn_results_list_ = [b] := by
      rw [hq]; exact evict_append_singleton _ _
    rw [hev] at hcount
    cases b with
    | nil =>
      rw [Process_empty_batch malloc_ok self src out q0 hsrc hout hq] at hr
      cases hr
    | cons first more =>
      by_cases hage : 133 < duartion_ms first.timeval src.atomic_clock
      · rw [Process_stale malloc_ok self src out q0 first more hsrc hout hq hage] at hr
        cases hr
        simp only [ProcessTrace, hsrc, hout, hne, hev]
        simp [hage, List.count_append] at hcount ⊢
        have h3 : [QueueEvent.lock, QueueEvent.pop, QueueEvent.unlock].count
            QueueEvent.pop = 1 := by decide
        omega
      · rw [Process_fresh malloc_ok self src out q0 first more hsrc hout hq (by omega)] at hr
        cases hr
        have hlen : (drawOutcome malloc_ok self src (first :: more)).filter.nn_results_list_.length
            = 1 := by
          unfold drawOutcome; split_ifs <;> rfl
        simp only [ProcessTrace, hsrc, hout, hne, hev]
        simp [hage, List.count_append] at hcount ⊢
        omega

/-! ## Theorems -/

/-- C1, with the age in milliseconds: the staleness test divides by 1000 and
keeps the result in an `int`. When the batch that the eviction loop retains has
timestamp ts, the image buffer has capture clock c and
134000 ≤ |ts - c| < 2^31 · 1000 (so that |(ts - c) / 1000| exceeds 133 and fits
the `int`), `Process` returns 0, hands back the input buffer with every byte as
it was, makes no hardware call, and the queue is empty afterwards. -/
theorem C1_stale_batch_dropped (malloc_ok : Int → Bool) (self : DrawFilter)
    (src out : ImageBuffer) (q : List (List RknnResult)) (first : RknnResult)
    (more : List RknnResult)
    (hsrc : src.type = MediaType.Image) (hout : out.type = MediaType.Image)
    (hq : self.nn_results_list_ = q ++ [first :: more])
    (hage : 134000 ≤ ((first.timeval - src.atomic_clock).natAbs : Int))
    (hfit : ((first.timeval - src.atomic_clock).natAbs : Int) < 2147483648000) :
    Process malloc_ok self (some src) (some out) =
      some { ret := 0, filter := { self with nn_results_list_ := [] },
             output := some src, hw := ⟨[], []⟩ } :=
  Process_stale malloc_ok self src out q first more hsrc hout hq
    (duartion_ms_gt_of_range _ _ hage hfit)

/-- C1, the instance: a fresh buffer stands in for what the stale-batch theorem
covers: timestamp 134000 against clock 0 on a queue of two batches. -/
theorem C1_stale_batch_dropped_witness :
    Process (fun _ => true)
        (swStage [[RknnResult.mk 5 (Rect.mk 0 0 8 8)], [RknnResult.mk 134000 (Rect.mk 4 4 12 12)]])
        (some blankImage) (some blankImage) =
      some { ret := 0
             filter := { swStage [[RknnResult.mk 5 (Rect.mk 0 0 8 8)],
                          [RknnResult.mk 134000 (Rect.mk 4 4 12 12)]] with nn_results_list_ := [] }
             output := some blankImage, hw := ⟨[], []⟩ } :=
  C1_stale_batch_dropped (fun _ => true) _ blankImage blankImage
    [[RknnResult.mk 5 (Rect.mk 0 0 8 8)]] (RknnResult.mk 134000 (Rect.mk 4 4 12 12)) []
    rfl rfl rfl (by decide) (by decide)

set_option maxRecDepth 100000 in
/-- C1 fails as stated, in two ways. With timestamp 1000 and capture clock 0
the difference is 1000 > 133, yet `Process` draws (the luma byte at offset 68,
pixel (4,4), changes from 0 to 0x4C) and the batch is still in the queue. And
with timestamp 2^32 · 1000 the age in milliseconds is 2^32, which the `int`
holds as 0: again `Process` draws and keeps the batch. -/
theorem C1_raw_difference_counterexample :
    (133 < (((1000 : Int) - blankImage.atomic_clock).natAbs : Int) ∧
    ∃ r img,
      Process (fun _ => true) (swStage [[RknnResult.mk 1000 (Rect.mk 4 4 12 12)]])
        (some blankImage) (some blankImage) = some r ∧
      r.ret = 0 ∧ r.output = some img ∧
      blankImage.data 68 = 0 ∧ img.data 68 = 0x4C ∧
      r.filter.nn_results_list_ = [[RknnResult.mk 1000 (Rect.mk 4 4 12 12)]]) ∧
    (133 < (((4294967296000 : Int) - blankImage.atomic_clock).natAbs : Int) ∧
    duartion_ms 4294967296000 blankImage.atomic_clock = 0 ∧
    ∃ r img,
      Process (fun _ => true) (swStage [[RknnResult.mk 4294967296000 (Rect.mk 4 4 6 6)]])
        (some blankImage) (some blankImage) = some r ∧
      r.ret = 0 ∧ r.output = some img ∧
      blankImage.data 68 = 0 ∧ img.data 68 = 0x4C ∧
      r.filter.nn_results_list_ = [[RknnResult.mk 4294967296000 (Rect.mk 4 4 6 6)]]) := by
  refine ⟨⟨by decide, _, _, rfl, rfl, rfl, rfl, ?_, rfl⟩,
    ⟨by decide, by decide, _, _, rfl, rfl, rfl, rfl, ?_, rfl⟩⟩
  · rfl
  · rfl

set_option maxRecDepth 100000 in
/-- C2 fails as stated: in a 16×16 NV12 image with thickness 2 the rectangle
(9,0,15,6) lies inside the image, yet `Process` with a fresh on-time batch
holding it changes the luma byte 60 of the pixel (row 3, column 12), which is
3 away from the right edge and not in the outline band of the rectangle; no
sample of a band pixel lives at offset 60. -/
theorem C2_clamped_band_counterexample :
    (0 ≤ (Rect.mk 9 0 15 6).left ∧ (Rect.mk 9 0 15 6).right < 16 ∧
      0 ≤ (Rect.mk 9 0 15 6).top ∧ (Rect.mk 9 0 15 6).bottom < 16) ∧
    (∃ r img,
      Process (fun _ => true) (swStage [[RknnResult.mk 0 (Rect.mk 9 0 15 6)]])
        (some blankImage) (some blankImage) = some r ∧
      r.output = some img ∧ blankImage.data 60 = 0 ∧ img.data 60 = 0x4C) ∧
    (∀ j k val, inOutlineBand (Rect.mk 9 0 15 6) 2 j k → ¬ isColourSample 16 16 j k 60 val) := by
  refine ⟨by decide, ⟨_, _, rfl, rfl, rfl, ?_⟩, ?_⟩
  · rfl
  · intro j k val hband hs
    simp only [inOutlineBand] at hband
    simp only [isColourSample] at hs
    omega

/-- C2, for rectangles inside the image that the clamping leaves alone: let
the image be NV12 with even width w and even height h, the stage be on the
software path with thickness t, and the fresh on-time batch (timestamp within
134000 of the capture clock) hold the one rectangle R with 0 ≤ left,
right ≤ w - t, right ≤ w - 1, 0 ≤ top, bottom ≤ h - t, bottom ≤ h - 1. Then
`Process` returns 0 and hands back the buffer in which every pixel of the
outline band of R is a pixel of the image and has its luma byte and its chroma
pair set to the fixed colour (0x4C, 0x54, 0xFF), every byte that is not a
sample of a band pixel equals the input byte, and every changed byte lies
within the `w * h * 3 / 2` bytes of the buffer. -/
theorem C2_only_outline_band_changes (malloc_ok : Int → Bool) (self : DrawFilter)
    (src out : ImageBuffer) (q : List (List RknnResult)) (ts : Int) (R : Rect)
    (hsrc : src.type = MediaType.Image) (hout : out.type = MediaType.Image)
    (hfmt : src.info.pix_fmt = PixelFormat.PIX_FMT_NV12)
    (hweven : src.info.width % 2 = 0) (hheven : src.info.height % 2 = 0)
    (hq : self.nn_results_list_ = q ++ [[RknnResult.mk ts R]])
    (hage : ((ts - src.atomic_clock).natAbs : Int) < 134000)
    (hsw : ¬ (self.handler_.isSome ∧ self.need_hw_draw_ = true))
    (hl : 0 ≤ R.left) (hr : R.right ≤ src.info.width - self.draw_rect_thick_)
    (hr1 : R.right ≤ src.info.width - 1)
    (ht : 0 ≤ R.top) (hb : R.bottom ≤ src.info.height - self.draw_rect_thick_)
    (hb1 : R.bottom ≤ src.info.height - 1) :
    ∃ r img, Process malloc_ok self (some src) (some out) = some r ∧
      r.ret = 0 ∧ r.output = some img ∧ img.info = src.info ∧
      (∀ j k, inOutlineBand R self.draw_rect_thick_ j k →
        (0 ≤ j ∧ j < src.info.height ∧ 0 ≤ k ∧ k < src.info.width) ∧
        img.data (j * src.info.width + k) = 0x4C ∧
        img.data (src.info.width * src.info.height + j / 2 * src.info.width + (k - k % 2))
          = 0x54 ∧
        img.data (src.info.width * src.info.height + j / 2 * src.info.width + (k - k % 2) + 1)
          = 0xFF) ∧
      (∀ o, (¬ ∃ j k, inOutlineBand R self.draw_rect_thick_ j k ∧
          (o = j * src.info.width + k ∨
            o = src.info.width * src.info.height + j / 2 * src.info.width + (k - k % 2) ∨
            o = src.info.width * src.info.height + j / 2 * src.info.width + (k - k % 2) + 1)) →
        img.data o = src.data o) ∧
      (∀ o, img.data o ≠ src.data o →
        0 ≤ o ∧ o < src.info.width * src.info.height * 3 / 2) := by
  have hp := Process_fresh malloc_ok self src out q (RknnResult.mk ts R) [] hsrc hout hq
    (duartion_ms_le_of_lt _ _ hage)
  have hclamp := draw_rect_clamp_id src.info.width src.info.height self.draw_rect_thick_ R
    hl hr ht hb
  have hdraw : DoDraw self.draw_rect_thick_ src [RknnResult.mk ts R] =
      { src with
        data := (draw_nv12_rect src.data src.info.width src.info.height R
          self.draw_rect_thick_ YUV_PIXEL_RED) } := by
    cases R
    simp only [DoDraw, List.foldl_cons, List.foldl_nil, draw_rect, hfmt, if_true]
    rw [hclamp]
  have hres : drawOutcome malloc_ok self src [RknnResult.mk ts R] =
      { ret := 0
        filter := { self with nn_results_list_ := [[RknnResult.mk ts R]] }
        output := some { src with
          data := (draw_nv12_rect src.data src.info.width src.info.height R
            self.draw_rect_thick_ YUV_PIXEL_RED) }
        hw := ⟨[], []⟩ } := by
    unfold drawOutcome
    rw [if_neg hsw, hdraw]
  rw [hres] at hp
  have hrw : R.right < src.info.width := by omega
  have hbh : R.bottom < src.info.height := by omega
  obtain ⟨hcov, _⟩ := draw_nv12_rect_coverage src.data src.info.width src.info.height
    self.draw_rect_thick_ R hl hrw ht hbh hweven
  refine ⟨_, _, hp, rfl, rfl, rfl, ?_, ?_, ?_⟩
  · intro j k hband
    obtain ⟨_, _, hpix⟩ := band_pixel_facts src.info.width src.info.height
      self.draw_rect_thick_ R hl hrw ht hbh hweven j k hband
    obtain ⟨c1, c2, c3⟩ := hcov j k hband
    have e1 : src.info.width * src.info.height + j / 2 * src.info.width + (k - k % 2) =
        j / 2 * src.info.width + k - k % 2 + src.info.width * src.info.height := by ring
    rw [e1]
    exact ⟨hpix, c1, c2, c3⟩
  · intro o hno
    exact draw_nv12_rect_frame src.data _ _ _ R hl o hno
  · intro o hchg
    exact draw_nv12_rect_in_bounds src.data _ _ _ R hl hrw ht hbh hweven hheven o hchg

/-- C2, the instance: the rectangle (4,4,6,6) on the blank 16×16 frame with
thickness 2; the band pixel (row 4, column 4) has luma byte 68. -/
theorem C2_only_outline_band_changes_witness :
    ∃ r img, Process (fun _ => true) (swStage [[RknnResult.mk 0 (Rect.mk 4 4 6 6)]])
        (some blankImage) (some blankImage) = some r ∧
      r.ret = 0 ∧ r.output = some img ∧ img.data (4 * 16 + 4) = 0x4C ∧
      ∀ o, img.data o ≠ blankImage.data o → 0 ≤ o ∧ o < 16 * 16 * 3 / 2 := by
  obtain ⟨r, img, hp, hret, hout, _, hcov, _, hin⟩ :=
    C2_only_outline_band_changes (fun _ => true) (swStage [[RknnResult.mk 0 (Rect.mk 4 4 6 6)]])
      blankImage blankImage [] 0 (Rect.mk 4 4 6 6) rfl rfl rfl (by decide) (by decide) rfl
      (by decide) (by decide) (by decide) (by decide) (by decide) (by decide) (by decide)
      (by decide)
  exact ⟨r, img, hp, hret, hout, (hcov 4 4 (by unfold inOutlineBand; decide)).2.1, hin⟩

/-- C3: after n ≥ 1 batches have been pushed (through `IoCtrl`) onto an empty
queue, the eviction loop of `Process` leaves exactly the batch pushed last: it
is the front that `Process` goes on to use and every older batch is gone. So
the next `Process` call on image buffers hands that batch to the renderer when
it is on time, and pops it (leaving the queue empty) when it is stale, that is
when 134000 ≤ |ts - c| < 2^31 · 1000 for its timestamp ts and the capture clock
c. -/
theorem C3_evict_keeps_newest (malloc_ok : Int → Bool) (self : DrawFilter)
    (ps : List (Int × Option (Nat → RknnResult))) (p : Int × Option (Nat → RknnResult))
    (src out : ImageBuffer)
    (hempty : self.nn_results_list_ = [])
    (hsrc : src.type = MediaType.Image) (hout : out.type = MediaType.Image) :
    evict ((ps ++ [p]).foldl Push self).nn_results_list_ = [batchOf p] ∧
    (∀ first more, batchOf p = first :: more →
      duartion_ms first.timeval src.atomic_clock ≤ 133 →
      Process malloc_ok ((ps ++ [p]).foldl Push self) (some src) (some out) =
        some (drawOutcome malloc_ok ((ps ++ [p]).foldl Push self) src (batchOf p))) ∧
    (∀ first more, batchOf p = first :: more →
      134000 ≤ ((first.timeval - src.atomic_clock).natAbs : Int) →
      ((first.timeval - src.atomic_clock).natAbs : Int) < 2147483648000 →
      Process malloc_ok ((ps ++ [p]).foldl Push self) (some src) (some out) =
        some { ret := 0
               filter := { (ps ++ [p]).foldl Push self with nn_results_list_ := [] }
               output := some src, hw := ⟨[], []⟩ }) := by
  have hqueue : ((ps ++ [p]).foldl Push self).nn_results_list_ =
      ps.map batchOf ++ [batchOf p] := by
    rw [foldl_Push_queue, hempty, List.nil_append, List.map_append, List.map_singleton]
  refine ⟨?_, ?_, ?_⟩
  · rw [hqueue]
    exact evict_append_singleton _ _
  · intro first more hb hage
    rw [hb] at hqueue ⊢
    exact Process_fresh malloc_ok _ src out _ first more hsrc hout hqueue hage
  · intro first more hb hage hfit
    rw [hb] at hqueue
    exact Process_stale malloc_ok _ src out _ first more hsrc hout hqueue
      (duartion_ms_gt_of_range _ _ hage hfit)

/-- C3, at three pushes: the batches with timestamps 1, 2 and 3 are pushed, the
one with timestamp 3 is what the eviction loop leaves. -/
theorem C3_evict_keeps_newest_witness :
    evict (List.foldl Push (swStage [])
        (([(1, some (fun _ => RknnResult.mk 1 (Rect.mk 0 0 8 8))),
          (1, some (fun _ => RknnResult.mk 2 (Rect.mk 0 0 8 8)))]
        ++ [(1, some (fun _ => RknnResult.mk 3 (Rect.mk 0 0 8 8)))]) :
          List (Int × Option (Nat → RknnResult)))).nn_results_list_
      = [[RknnResult.mk 3 (Rect.mk 0 0 8 8)]] :=
  (C3_evict_keeps_newest (fun _ => true) (swStage []) _ _ blankImage blankImage rfl rfl rfl).1

/-- C4: the clamping step of `draw_rect` sets right to w - t exactly when
right > w - t, left to 0 exactly when left < 0, bottom to h - t exactly when
bottom > h - t, top to 0 exactly when top < 0, and leaves an edge unchanged
otherwise; so right = w + 50 becomes w - t (for t > -50) and left = -10
becomes 0. -/
theorem C4_clamp_edges (w h t : Int) (r : Rect) :
    (draw_rect_clamp w h t r).right = (if r.right > w - t then w - t else r.right) ∧
    (draw_rect_clamp w h t r).left = (if r.left < 0 then 0 else r.left) ∧
    (draw_rect_clamp w h t r).bottom = (if r.bottom > h - t then h - t else r.bottom) ∧
    (draw_rect_clamp w h t r).top = (if r.top < 0 then 0 else r.top) ∧
    (-50 < t → (draw_rect_clamp w h t { r with right := w + 50 }).right = w - t) ∧
    (draw_rect_clamp w h t { r with left := -10 }).left = 0 := by
  refine ⟨?_, ?_, ?_, ?_, ?_, ?_⟩
  · rw [draw_rect_clamp_eq]
  · rw [draw_rect_clamp_eq]
  · rw [draw_rect_clamp_eq]
  · rw [draw_rect_clamp_eq]
  · intro ht
    rw [draw_rect_clamp_eq]
    have hgt : w + 50 > w - t := by omega
    simp [hgt]
  · rw [draw_rect_clamp_eq]
    simp

/-- C5: `combine_rect` is the bounding box: for a non-empty vector its left
and top are lower bounds of all lefts and tops and are attained, its right and
bottom are upper bounds of all rights and bottoms and are attained; for the
empty vector it is the zero rectangle; and (16,16,48,48), (64,32,96,64)
combine to (16,16,96,64). -/
theorem C5_combine_rect_bounding_box (r0 : Rect) (rest : List Rect) :
    ((∀ r ∈ r0 :: rest, (combine_rect (r0 :: rest)).left ≤ r.left) ∧
      (∃ r ∈ r0 :: rest, (combine_rect (r0 :: rest)).left = r.left)) ∧
    ((∀ r ∈ r0 :: rest, (combine_rect (r0 :: rest)).top ≤ r.top) ∧
      (∃ r ∈ r0 :: rest, (combine_rect (r0 :: rest)).top = r.top)) ∧
    ((∀ r ∈ r0 :: rest, r.right ≤ (combine_rect (r0 :: rest)).right) ∧
      (∃ r ∈ r0 :: rest, (combine_rect (r0 :: rest)).right = r.right)) ∧
    ((∀ r ∈ r0 :: rest, r.bottom ≤ (combine_rect (r0 :: rest)).bottom) ∧
      (∃ r ∈ r0 :: rest, (combine_rect (r0 :: rest)).bottom = r.bottom)) ∧
    combine_rect [] = ⟨0, 0, 0, 0⟩ ∧
    combine_rect [⟨16, 16, 48, 48⟩, ⟨64, 32, 96, 64⟩] = ⟨16, 16, 96, 64⟩ := by
  rw [combine_rect_cons]
  obtain ⟨⟨b1, b2, b3, b4⟩, hall⟩ := combine_fold_bounds rest r0
  obtain ⟨a1, a2, a3, a4⟩ := combine_fold_attained rest r0
  simp only [List.mem_cons, forall_eq_or_imp, exists_eq_or_imp]
  refine ⟨⟨⟨b1, fun r hr => (hall r hr).1⟩, a1⟩, ⟨⟨b2, fun r hr => (hall r hr).2.1⟩, a2⟩,
    ⟨⟨b3, fun r hr => (hall r hr).2.2.1⟩, a3⟩, ⟨⟨b4, fun r hr => (hall r hr).2.2.2⟩, a4⟩,
    rfl, by decide⟩

/-- C6 fails as stated: for the single rectangle (10,10,40,40) with a
successful allocation, `DoHwDraw` logs no error and makes one control call. -/
theorem C6_single_rect_counterexample :
    (DoHwDraw (fun _ => true) 2 [RknnResult.mk 0 (Rect.mk 10 10 40 40)]).errors = [] ∧
    (DoHwDraw (fun _ => true) 2 [RknnResult.mk 0 (Rect.mk 10 10 40 40)]).controls.length = 1 := by
  constructor <;> rfl

/-- C6, what the code does with (10,10,40,40): the rectangle is aligned to
(16,16,32,32), the descriptor sits at (16,16) with size 16×16 and passes the
multiple-of-16 test, so no configuration error is logged and, when the
allocation of the 256 bytes succeeds, exactly one control call carries that
descriptor (enabled, region 7); when the allocation fails there is no call.
For every batch whatsoever `DoHwDraw` logs no configuration error. -/
theorem C6_single_rect_accepted (malloc_ok : Int → Bool) (thick timeval : Int) :
    align_rects [RknnResult.mk timeval (Rect.mk 10 10 40 40)] = [Rect.mk 16 16 32 32] ∧
    (DoHwDraw malloc_ok thick [RknnResult.mk timeval (Rect.mk 10 10 40 40)]).errors = [] ∧
    (malloc_ok 256 = true →
      ∃ c, (DoHwDraw malloc_ok thick [RknnResult.mk timeval (Rect.mk 10 10 40 40)]).controls = [c] ∧
        c.pos_x = 16 ∧ c.pos_y = 16 ∧ c.width = 16 ∧ c.height = 16 ∧
        c.enable = 1 ∧ c.region_id = 7) ∧
    (malloc_ok 256 = false →
      (DoHwDraw malloc_ok thick [RknnResult.mk timeval (Rect.mk 10 10 40 40)]).controls = []) ∧
    (∀ nn_result : List RknnResult, (DoHwDraw malloc_ok thick nn_result).errors = []) := by
  refine ⟨rfl, DoHwDraw_errors _ _ _, ?_, ?_, DoHwDraw_errors _ _⟩
  · intro hm
    obtain ⟨c, hc, h1, h2, h3, h4, h5, h6⟩ := DoHwDraw_controls_of_alloc malloc_ok thick
      [RknnResult.mk timeval (Rect.mk 10 10 40 40)] hm
    exact ⟨c, hc, h1, h2, h3, h4, h5, h6⟩
  · intro hm
    exact DoHwDraw_controls_of_no_alloc malloc_ok thick _ hm

set_option maxRecDepth 100000 in
/-- C7 fails as stated: one batch, two `Process` calls on fresh frames; the
first call draws it (luma byte 68 becomes 0x4C) and leaves it at the front of
the queue, the second call draws the same batch again. -/
theorem C7_batch_drawn_twice_counterexample :
    ∃ r1 img1 r2 img2,
      Process (fun _ => true) (swStage [[RknnResult.mk 0 (Rect.mk 4 4 6 6)]])
        (some blankImage) (some blankImage) = some r1 ∧
      r1.output = some img1 ∧ blankImage.data 68 = 0 ∧ img1.data 68 = 0x4C ∧
      r1.filter.nn_results_list_.head? = some [RknnResult.mk 0 (Rect.mk 4 4 6 6)] ∧
      Process (fun _ => true) r1.filter (some blankImage) (some blankImage) = some r2 ∧
      r2.output = some img2 ∧ img2.data 68 = 0x4C := by
  refine ⟨_, _, _, _, rfl, rfl, rfl, ?_, rfl, rfl, rfl, ?_⟩ <;> rfl

/-- C7, what the code does: a batch that `Process` draws is not popped. When
the batch retained by the eviction loop is on time for the frame
(|(ts - c) / 1000| ≤ 133), `Process` hands it to the renderer and the queue
afterwards is exactly that batch; a further `Process` call with a frame that is
still on time hands the same batch to the renderer again and again leaves it in
the queue. (It leaves the queue only through the eviction loop, once a newer
batch has been pushed, or through the staleness pop.) -/
theorem C7_drawn_batch_stays (malloc_ok : Int → Bool) (self : DrawFilter)
    (src out src2 out2 : ImageBuffer) (q : List (List RknnResult)) (first : RknnResult)
    (more : List RknnResult)
    (hsrc : src.type = MediaType.Image) (hout : out.type = MediaType.Image)
    (hsrc2 : src2.type = MediaType.Image) (hout2 : out2.type = MediaType.Image)
    (hq : self.nn_results_list_ = q ++ [first :: more])
    (hage : duartion_ms first.timeval src.atomic_clock ≤ 133)
    (hage2 : duartion_ms first.timeval src2.atomic_clock ≤ 133) :
    Process malloc_ok self (some src) (some out) =
      some (drawOutcome malloc_ok self src (first :: more)) ∧
    (drawOutcome malloc_ok self src (first :: more)).filter.nn_results_list_ = [first :: more] ∧
    Process malloc_ok (drawOutcome malloc_ok self src (first :: more)).filter
        (some src2) (some out2) =
      some (drawOutcome malloc_ok (drawOutcome malloc_ok self src (first :: more)).filter src2
        (first :: more)) ∧
    (drawOutcome malloc_ok (drawOutcome malloc_ok self src (first :: more)).filter src2
        (first :: more)).filter.nn_results_list_ = [first :: more] := by
  have hfq : ∀ (f : DrawFilter) (i : ImageBuffer),
      (drawOutcome malloc_ok f i (first :: more)).filter.nn_results_list_ = [first :: more] := by
    intro f i
    unfold drawOutcome
    split_ifs <;> rfl
  refine ⟨Process_fresh malloc_ok self src out q first more hsrc hout hq hage, hfq _ _, ?_, hfq _ _⟩
  exact Process_fresh malloc_ok _ src2 out2 [] first more hsrc2 hout2 (by rw [hfq]; rfl) hage2

/-- C7, the instance: the stage with one batch at timestamp 0 and the blank
frame at clock 0, processed twice. -/
theorem C7_drawn_batch_stays_witness :
    Process (fun _ => true) (swStage [[RknnResult.mk 0 (Rect.mk 4 4 6 6)]])
        (some blankImage) (some blankImage) =
      some (drawOutcome (fun _ => true) (swStage [[RknnResult.mk 0 (Rect.mk 4 4 6 6)]])
        blankImage [RknnResult.mk 0 (Rect.mk 4 4 6 6)]) :=
  (C7_drawn_batch_stays (fun _ => true) (swStage [[RknnResult.mk 0 (Rect.mk 4 4 6 6)]])
    blankImage blankImage blankImage blankImage [] (RknnResult.mk 0 (Rect.mk 4 4 6 6)) []
    rfl rfl rfl rfl rfl (by decide) (by decide)).1

/-- C8 fails as stated: three pushes onto the empty queue, with no `Process`
call in between, leave three batches in the queue. -/
theorem C8_three_pushes_counterexample :
    (List.foldl Push (swStage [])
      [(1, some (fun _ => RknnResult.mk 1 (Rect.mk 0 0 8 8))),
       (1, some (fun _ => RknnResult.mk 2 (Rect.mk 0 0 8 8))),
       (1, some (fun _ => RknnResult.mk 3 (Rect.mk 0 0 8 8)))]).nn_results_list_.length = 3 ∧
    ¬ (3 ≤ 2) := by
  constructor
  · rfl
  · decide

/-- C8, what the code does: the bound is kept by the consumer only. A push adds
one batch whatever the length of the queue, so k pushes make the queue k
longer; right after a `Process` call on image buffers that gets past the
emptiness test the queue holds at most one batch, hence at most 1 + k batches
after k further pushes. `Process` yields its result unless the batch that the
eviction loop retains is empty. -/
theorem C8_queue_length (malloc_ok : Int → Bool) (self : DrawFilter) (src out : ImageBuffer)
    (ps : List (Int × Option (Nat → RknnResult)))
    (hsrc : src.type = MediaType.Image) (hout : out.type = MediaType.Image) :
    (ps.foldl Push self).nn_results_list_.length = self.nn_results_list_.length + ps.length ∧
    ((Process malloc_ok self (some src) (some out)).isSome = true ↔
      evict self.nn_results_list_ ≠ [[]]) ∧
    (∀ r, Process malloc_ok self (some src) (some out) = some r →
      r.filter.nn_results_list_.length ≤ 1 ∧
      (ps.foldl Push r.filter).nn_results_list_.length ≤ 1 + ps.length) := by
  have hpush : ∀ f : DrawFilter,
      (ps.foldl Push f).nn_results_list_.length = f.nn_results_list_.length + ps.length := by
    intro f
    rw [foldl_Push_queue, List.length_append, List.length_map]
  refine ⟨hpush self, Process_returns_iff malloc_ok self src out hsrc hout, ?_⟩
  intro r hr
  have h1 := Process_queue_length malloc_ok self src out r hsrc hout hr
  refine ⟨h1, ?_⟩
  rw [hpush]
  omega

/-- C8, the instance: two batches queued, one on-time frame processed, then two
more pushes: the queue holds one batch after `Process` and three at the end. -/
theorem C8_queue_length_witness :
    (List.foldl Push (swStage [[RknnResult.mk 0 (Rect.mk 0 0 8 8)], [RknnResult.mk 0 (Rect.mk 4 4 6 6)]])
      [(1, some (fun _ => RknnResult.mk 1 (Rect.mk 0 0 8 8))),
       (1, some (fun _ => RknnResult.mk 2 (Rect.mk 0 0 8 8)))]).nn_results_list_.length
      = (swStage [[RknnResult.mk 0 (Rect.mk 0 0 8 8)],
          [RknnResult.mk 0 (Rect.mk 4 4 6 6)]]).nn_results_list_.length + 2 :=
  (C8_queue_length (fun _ => true)
    (swStage [[RknnResult.mk 0 (Rect.mk 0 0 8 8)], [RknnResult.mk 0 (Rect.mk 4 4 6 6)]])
    blankImage blankImage
    [(1, some (fun _ => RknnResult.mk 1 (Rect.mk 0 0 8 8))),
     (1, some (fun _ => RknnResult.mk 2 (Rect.mk 0 0 8 8)))] rfl rfl).1

/-- C9 fails as stated: for the single rectangle (1,1,8,8) the aligned left is
16 and the aligned right is 0, so the descriptor has width -16 and height
-16. -/
theorem C9_negative_size_counterexample :
    (hw_descriptor [RknnResult.mk 0 (Rect.mk 1 1 8 8)]).width = -16 ∧
    (hw_descriptor [RknnResult.mk 0 (Rect.mk 1 1 8 8)]).height = -16 ∧
    ¬ (0 ≤ (hw_descriptor [RknnResult.mk 0 (Rect.mk 1 1 8 8)]).width) := by
  decide

/-- C9, what the code does: for every batch the descriptor that `DoHwDraw`
builds has pos_x, pos_y, width and height that are multiples of 16, and every
payload that reaches the sink carries exactly these four values; the width is
non-negative when the batch is empty or some rectangle has its aligned left
not beyond its aligned right, the height likewise for top and bottom. -/
theorem C9_descriptor_alignment (malloc_ok : Int → Bool) (thick : Int)
    (nn_result : List RknnResult) :
    ((16 : Int) ∣ (hw_descriptor nn_result).pos_x ∧ (16 : Int) ∣ (hw_descriptor nn_result).pos_y ∧
      (16 : Int) ∣ (hw_descriptor nn_result).width ∧
      (16 : Int) ∣ (hw_descriptor nn_result).height) ∧
    (∀ c ∈ (DoHwDraw malloc_ok thick nn_result).controls,
      c.pos_x = (hw_descriptor nn_result).pos_x ∧ c.pos_y = (hw_descriptor nn_result).pos_y ∧
      c.width = (hw_descriptor nn_result).width ∧ c.height = (hw_descriptor nn_result).height) ∧
    ((nn_result = [] ∨
        ∃ r ∈ nn_result, UPALIGNTO16 r.box.left ≤ DOWNALIGNTO16 r.box.right) →
      0 ≤ (hw_descriptor nn_result).width) ∧
    ((nn_result = [] ∨
        ∃ r ∈ nn_result, UPALIGNTO16 r.box.top ≤ DOWNALIGNTO16 r.box.bottom) →
      0 ≤ (hw_descriptor nn_result).height) := by
  have hbox : ∀ r ∈ nn_result,
      (combine_rect (align_rects nn_result)).left ≤ UPALIGNTO16 r.box.left ∧
      (combine_rect (align_rects nn_result)).top ≤ UPALIGNTO16 r.box.top ∧
      DOWNALIGNTO16 r.box.right ≤ (combine_rect (align_rects nn_result)).right ∧
      DOWNALIGNTO16 r.box.bottom ≤ (combine_rect (align_rects nn_result)).bottom := by
    intro r hr
    cases hnn : nn_result with
    | nil => rw [hnn] at hr; simp at hr
    | cons a rest =>
      have hcons : align_rects (a :: rest) = align_rect a :: align_rects rest := rfl
      obtain ⟨⟨b1, b2, b3, b4⟩, hall⟩ := combine_fold_bounds (align_rects rest) (align_rect a)
      rw [hcons, combine_rect_cons]
      rw [hnn] at hr
      rcases List.mem_cons.mp hr with rfl | hr
      · exact ⟨b1, b2, b3, b4⟩
      · exact hall (align_rect r) (List.mem_map_of_mem _ hr)
  refine ⟨hw_descriptor_dvd nn_result, ?_, ?_, ?_⟩
  · intro c hc
    by_cases hm : malloc_ok ((hw_descriptor nn_result).width * (hw_descriptor nn_result).height)
        = true
    · obtain ⟨c0, hc0, h1, h2, h3, h4, _, _⟩ :=
        DoHwDraw_controls_of_alloc malloc_ok thick nn_result hm
      rw [hc0, List.mem_singleton] at hc
      subst hc
      exact ⟨h1, h2, h3, h4⟩
    · rw [DoHwDraw_controls_of_no_alloc malloc_ok thick nn_result (by simpa using hm)] at hc
      simp at hc
  · rintro (rfl | ⟨r, hr, hle⟩)
    · decide
    · obtain ⟨h1, _, h3, _⟩ := hbox r hr
      show 0 ≤ (combine_rect (align_rects nn_result)).right
        - (combine_rect (align_rects nn_result)).left
      omega
  · rintro (rfl | ⟨r, hr, hle⟩)
    · decide
    · obtain ⟨_, h2, _, h4⟩ := hbox r hr
      show 0 ≤ (combine_rect (align_rects nn_result)).bottom
        - (combine_rect (align_rects nn_result)).top
      omega

/-- C10 fails as stated: in a 100×100 image with thickness 2 the rectangle
(200,10,300,20) has left ≤ right, but clamping gives right = 98 and leaves
left = 200. -/
theorem C10_clamp_inverts_counterexample :
    (Rect.mk 200 10 300 20).left ≤ (Rect.mk 200 10 300 20).right ∧
    (Rect.mk 200 10 300 20).top ≤ (Rect.mk 200 10 300 20).bottom ∧
    (draw_rect_clamp 100 100 2 (Rect.mk 200 10 300 20)).left = 200 ∧
    (draw_rect_clamp 100 100 2 (Rect.mk 200 10 300 20)).right = 98 ∧
    ¬ ((draw_rect_clamp 100 100 2 (Rect.mk 200 10 300 20)).left ≤
        (draw_rect_clamp 100 100 2 (Rect.mk 200 10 300 20)).right) := by
  decide

/-- C10, what the code does: for an input rectangle with left ≤ right and
top ≤ bottom, the clamped rectangle has left ≤ right exactly when 0 ≤ right,
left ≤ w - t and t ≤ w, and top ≤ bottom exactly when 0 ≤ bottom, top ≤ h - t
and t ≤ h; so the order of the edges is kept for every rectangle that meets the
drawable area [0, w - t] × [0, h - t]. -/
theorem C10_clamp_order_iff (w h t : Int) (r : Rect)
    (hlr : r.left ≤ r.right) (htb : r.top ≤ r.bottom) :
    ((draw_rect_clamp w h t r).left ≤ (draw_rect_clamp w h t r).right ↔
      (0 ≤ r.right ∧ r.left ≤ w - t ∧ t ≤ w)) ∧
    ((draw_rect_clamp w h t r).top ≤ (draw_rect_clamp w h t r).bottom ↔
      (0 ≤ r.bottom ∧ r.top ≤ h - t ∧ t ≤ h)) := by
  rw [draw_rect_clamp_eq]
  constructor
  · show (if r.left < 0 then 0 else r.left) ≤ (if r.right > w - t then w - t else r.right) ↔ _
    split_ifs <;> omega
  · show (if r.top < 0 then 0 else r.top) ≤ (if r.bottom > h - t then h - t else r.bottom) ↔ _
    split_ifs <;> omega

/-- C10, the instance: the rectangle (-10,90,150,120) in a 100×100 image with
thickness 2 is clamped to (0,90,98,98). -/
theorem C10_clamp_order_iff_witness :
    (draw_rect_clamp 100 100 2 (Rect.mk (-10) 90 150 120)).left ≤
      (draw_rect_clamp 100 100 2 (Rect.mk (-10) 90 150 120)).right ∧
    (draw_rect_clamp 100 100 2 (Rect.mk (-10) 90 150 120)).top ≤
      (draw_rect_clamp 100 100 2 (Rect.mk (-10) 90 150 120)).bottom :=
  ⟨(C10_clamp_order_iff 100 100 2 (Rect.mk (-10) 90 150 120) (by decide) (by decide)).1.mpr
      (by decide),
    (C10_clamp_order_iff 100 100 2 (Rect.mk (-10) 90 150 120) (by decide) (by decide)).2.mpr
      (by decide)⟩

/-- C11 fails as stated: a descriptor with the enable flag clear and size
10×10 passes the test of `DoHwDrawRect` unexamined, and one control call is
made with it, both for `enable = 1` and for `enable = 0`. -/
theorem C11_disabled_region_counterexample :
    ¬ ((16 : Int) ∣ (OsdRegionData.mk (fun _ => 0) 0 0 10 10 7 0).width) ∧
    (∃ c, (DoHwDrawRect (OsdRegionData.mk (fun _ => 0) 0 0 10 10 7 0) 1).controls = [c] ∧
      c.width = 10 ∧ c.height = 10) ∧
    (∃ c, (DoHwDrawRect (OsdRegionData.mk (fun _ => 0) 0 0 10 10 7 0) 0).controls = [c] ∧
      c.width = 10 ∧ c.height = 10) := by
  refine ⟨by decide, ⟨_, rfl, rfl, rfl⟩, ⟨_, rfl, rfl, rfl⟩⟩

/-- C11, for descriptors with the enable flag set: when `region_data->enable`
is non-zero and the width or the height is not a multiple of 16,
`DoHwDrawRect` logs the error and makes no control call, whatever its `enable`
argument; and every payload that reaches the sink either has width and height
that are multiples of 16 or comes from a descriptor whose enable flag was
clear (the test is skipped for those). -/
theorem C11_enabled_regions_aligned (region_data : OsdRegionData) (enable : Int) :
    (region_data.enable ≠ 0 →
      (¬ (16 : Int) ∣ region_data.width ∨ ¬ (16 : Int) ∣ region_data.height) →
      (DoHwDrawRect region_data enable).controls = [] ∧
      (DoHwDrawRect region_data enable).errors =
        ["ERROR: osd region size must be a multiple of 16x16."]) ∧
    (∀ c ∈ (DoHwDrawRect region_data enable).controls,
      (c.width = region_data.width ∧ c.height = region_data.height) ∧
      (((16 : Int) ∣ c.width ∧ (16 : Int) ∣ c.height) ∨ region_data.enable = 0)) := by
  have hw : Int.tmod region_data.width 16 ≠ 0 ↔ ¬ (16 : Int) ∣ region_data.width := by
    rw [Int.dvd_iff_tmod_eq_zero]
  have hh : Int.tmod region_data.height 16 ≠ 0 ↔ ¬ (16 : Int) ∣ region_data.height := by
    rw [Int.dvd_iff_tmod_eq_zero]
  constructor
  · intro hen hmis
    have hcond : region_data.enable ≠ 0 ∧
        (Int.tmod region_data.width 16 ≠ 0 ∨ Int.tmod region_data.height 16 ≠ 0) :=
      ⟨hen, hmis.imp hw.mpr hh.mpr⟩
    unfold DoHwDrawRect
    rw [if_pos hcond]
    exact ⟨rfl, rfl⟩
  · intro c hc
    unfold DoHwDrawRect at hc
    by_cases hcond : region_data.enable ≠ 0 ∧
        (Int.tmod region_data.width 16 ≠ 0 ∨ Int.tmod region_data.height 16 ≠ 0)
    · rw [if_pos hcond] at hc
      simp at hc
    · rw [if_neg hcond] at hc
      have halign : ((16 : Int) ∣ region_data.width ∧ (16 : Int) ∣ region_data.height) ∨
          region_data.enable = 0 := by
        by_cases hen : region_data.enable = 0
        · exact Or.inr hen
        · left
          constructor
          · by_contra hnd
            exact hcond ⟨hen, Or.inl (hw.mpr hnd)⟩
          · by_contra hnd
            exact hcond ⟨hen, Or.inr (hh.mpr hnd)⟩
      by_cases he : enable ≠ 0
      · rw [if_pos he] at hc
        simp only [List.mem_singleton] at hc
        subst hc
        exact ⟨⟨rfl, rfl⟩, halign⟩
      · rw [if_neg he] at hc
        simp only [List.mem_singleton] at hc
        subst hc
        exact ⟨⟨rfl, rfl⟩, halign⟩

/-- C13: with an empty queue `Process` on image buffers returns 0, hands back
the input buffer itself (every byte as it was), makes no hardware call and
leaves the stage, hence the empty queue, as it is; calling `Process` again on
the stage and the buffer that the first call left gives the same result. -/
theorem C13_empty_queue_noop (malloc_ok : Int → Bool) (self : DrawFilter)
    (src out : ImageBuffer)
    (hsrc : src.type = MediaType.Image) (hout : out.type = MediaType.Image)
    (hq : self.nn_results_list_ = []) :
    Process malloc_ok self (some src) (some out) =
      some { ret := 0, filter := self, output := some src, hw := ⟨[], []⟩ } ∧
    (∀ r, Process malloc_ok self (some src) (some out) = some r →
      r.filter.nn_results_list_ = [] ∧
      Process malloc_ok r.filter (some src) r.output =
        Process malloc_ok self (some src) (some out)) := by
  have h1 := Process_empty_queue malloc_ok self src out hsrc hout hq
  refine ⟨h1, ?_⟩
  intro r hr
  rw [h1] at hr
  cases hr
  exact ⟨hq, by rw [h1]; exact Process_empty_queue malloc_ok self src src hsrc hsrc hq⟩

/-- C13, the instance: the software stage with an empty queue and the blank
frame. -/
theorem C13_empty_queue_noop_witness :
    Process (fun _ => true) (swStage []) (some blankImage) (some blankImage) =
      some { ret := 0, filter := swStage [], output := some blankImage, hw := ⟨[], []⟩ } :=
  (C13_empty_queue_noop (fun _ => true) (swStage []) blankImage blankImage rfl rfl rfl).1

/-- C19 does not hold of the code: a push request with a count ≤ 0 or with a
null record array makes `IoCtrl` enqueue an empty batch; the eviction loop of
the next `Process` call on image buffers retains exactly that batch, and
`Process` then takes `front()` of the empty list to read a timestamp, which is
undefined (`none` in the embedding). -/
theorem C19_empty_batch_front (malloc_ok : Int → Bool) (self : DrawFilter)
    (p : Int × Option (Nat → RknnResult)) (src out : ImageBuffer)
    (hsrc : src.type = MediaType.Image) (hout : out.type = MediaType.Image)
    (hp : p.1 ≤ 0 ∨ p.2 = none) :
    (IoCtrl self (Request.S_SUB_REQUEST
      { sub_request := SubRequestCode.S_NN_INFO, size := p.1, arg := p.2 })).1 = 0 ∧
    (Push self p).nn_results_list_ = self.nn_results_list_ ++ [[]] ∧
    evict (Push self p).nn_results_list_ = [[]] ∧
    Process malloc_ok (Push self p) (some src) (some out) = none := by
  have hq : (Push self p).nn_results_list_ = self.nn_results_list_ ++ [[]] := by
    have := foldl_Push_queue [p] self
    simpa [batchOf_eq_nil p hp] using this
  refine ⟨by simp [IoCtrl], hq, ?_, Process_empty_batch malloc_ok _ src out _ hsrc hout hq⟩
  rw [hq]
  exact evict_append_singleton _ _

/-- C19, the instance: a push with count 0 onto a queue that holds one good
batch, then `Process` on the blank frame. -/
theorem C19_empty_batch_front_witness :
    Process (fun _ => true)
      (Push (swStage [[RknnResult.mk 0 (Rect.mk 4 4 6 6)]])
        (0, some (fun _ => RknnResult.mk 0 (Rect.mk 0 0 8 8))))
      (some blankImage) (some blankImage) = none :=
  (C19_empty_batch_front (fun _ => true) (swStage [[RknnResult.mk 0 (Rect.mk 4 4 6 6)]])
    (0, some (fun _ => RknnResult.mk 0 (Rect.mk 0 0 8 8))) blankImage blankImage rfl rfl
    (Or.inl (by decide))).2.2.2

set_option maxRecDepth 100000 in
/-- C15 fails as stated: for the rectangle (0,0,10,10) with thickness 2 in a
buffer of width 10, the pixel (row 5, column 2) lies in the half-open range and
satisfies the software test (k ≤ left + t), yet `hw_draw_rect` leaves its byte
at 0xFF; the neighbour (row 5, column 1) is written. -/
theorem C15_band_tests_differ_counterexample :
    ((0 : Int) ≤ 5 ∧ (5 : Int) < 10 ∧ (0 : Int) ≤ 2 ∧ (2 : Int) < 10) ∧
    swBandTest (Rect.mk 0 0 10 10) 2 5 2 ∧
    hw_draw_rect (fun _ => 0xFF) 10 (Rect.mk 0 0 10 10) 2 0x23 (5 * 10 + 2) = 0xFF ∧
    hw_draw_rect (fun _ => 0xFF) 10 (Rect.mk 0 0 10 10) 2 0x23 (5 * 10 + 1) = 0x23 := by
  refine ⟨by decide, Or.inl (by decide), ?_, ?_⟩ <;> rfl

/-- C15, what the code does: the test of `hw_draw_rect` is the strict one
(k < left + t or k > right − t or j < top + t or j > bottom − t). A byte of the
buffer becomes the palette index exactly when it is the byte `j * img_w + k` of
a pixel of the half-open range that passes the strict test, and keeps its value
otherwise. The strict test implies the software test (which is the one of
`draw_nv12_rect`), and the two differ exactly at the pixels that are at
distance t from an edge and nearer to none. -/
theorem C15_hw_band_is_strict (data : Bytes) (img_w : Int) (rect : Rect) (thick : Int)
    (index : Nat) :
    (∀ j k, hw_band rect thick j k = true ↔ strictBandTest rect thick j k) ∧
    (∀ o, (hwWrites img_w rect thick o →
        hw_draw_rect data img_w rect thick index o = index % 256) ∧
      (¬ hwWrites img_w rect thick o →
        hw_draw_rect data img_w rect thick index o = data o)) ∧
    (∀ j k, nv12_band rect.left rect.top (rect.right - rect.left) (rect.bottom - rect.top)
        thick j k = true ↔ swBandTest rect thick j k) ∧
    (∀ j k, strictBandTest rect thick j k → swBandTest rect thick j k) ∧
    (∀ j k, (swBandTest rect thick j k ∧ ¬ strictBandTest rect thick j k) ↔
      (rect.left + thick ≤ k ∧ k ≤ rect.right - thick ∧
        rect.top + thick ≤ j ∧ j ≤ rect.bottom - thick ∧
        (k = rect.left + thick ∨ k = rect.right - thick ∨
          j = rect.top + thick ∨ j = rect.bottom - thick))) := by
  refine ⟨fun j k => hw_band_iff rect thick j k,
    fun o => hw_draw_rect_spec data img_w rect thick index o,
    fun j k => nv12_band_iff rect thick j k, ?_, ?_⟩
  · intro j k h
    unfold strictBandTest at h
    unfold swBandTest
    omega
  · intro j k
    unfold strictBandTest swBandTest
    constructor <;> (intro h; omega)

set_option maxRecDepth 100000 in
/-- C16 fails as stated, in two ways. With thickness 0 the rectangle
(14,4,16,6) is clamped for a 16×16 image, its band pixel (row 5, column 16)
has luma offset 96, which is the luma byte of the pixel (row 6, column 0)
outside the band: that byte is written. With the odd width 5 (height 4,
thickness 1, rectangle (0,0,4,2)) the second chroma byte of the band pixel
(row 0, column 4), at offset 25, ends as 0x54, not 0xFF. -/
theorem C16_coverage_counterexample :
    (((0 : Int) ≤ 14 ∧ (14 : Int) ≤ 16 ∧ (16 : Int) ≤ 16 - 0 ∧
        (0 : Int) ≤ 4 ∧ (4 : Int) ≤ 6 ∧ (6 : Int) ≤ 16 - 0) ∧
      ¬ inOutlineBand (Rect.mk 14 4 16 6) 0 6 0 ∧
      draw_nv12_rect (fun _ => 0) 16 16 (Rect.mk 14 4 16 6) 0 YUV_PIXEL_RED (6 * 16 + 0)
        = 0x4C) ∧
    (((0 : Int) ≤ 0 ∧ (0 : Int) ≤ 4 ∧ (4 : Int) ≤ 5 - 1 ∧
        (0 : Int) ≤ 0 ∧ (0 : Int) ≤ 2 ∧ (2 : Int) ≤ 4 - 1) ∧
      inOutlineBand (Rect.mk 0 0 4 2) 1 0 4 ∧
      draw_nv12_rect (fun _ => 0) 5 4 (Rect.mk 0 0 4 2) 1 YUV_PIXEL_RED
        (5 * 4 + 0 / 2 * 5 + (4 - 4 % 2) + 1) = 0x54) := by
  refine ⟨⟨by decide, ?_, ?_⟩, ⟨by decide, ?_, ?_⟩⟩
  · unfold inOutlineBand; decide
  · rfl
  · unfold inOutlineBand; decide
  · rfl

/-- C16, for rectangles inside an image of even width: let w be even and the
rectangle satisfy 0 ≤ left, right ≤ w − 1, 0 ≤ top, bottom ≤ h − 1 (every
clamped rectangle does when the thickness is at least 1). After
`draw_nv12_rect` every pixel of the outline band has luma byte
`data[j*w + k]` = 0x4C and chroma bytes at `w*h + (j/2)*w + (k − k mod 2)` and
the byte after it equal to 0x54 and 0xFF, and the luma byte of every image
pixel outside the band is the one of the input. -/
theorem C16_band_coverage (data : Bytes) (w h t : Int) (R : Rect)
    (hl : 0 ≤ R.left) (hr : R.right ≤ w - 1) (ht : 0 ≤ R.top) (hb : R.bottom ≤ h - 1)
    (hw : w % 2 = 0) :
    (∀ j k, inOutlineBand R t j k →
      draw_nv12_rect data w h R t YUV_PIXEL_RED (j * w + k) = 0x4C ∧
      draw_nv12_rect data w h R t YUV_PIXEL_RED (w * h + j / 2 * w + (k - k % 2)) = 0x54 ∧
      draw_nv12_rect data w h R t YUV_PIXEL_RED (w * h + j / 2 * w + (k - k % 2) + 1) = 0xFF) ∧
    (∀ j k, 0 ≤ j → j < h → 0 ≤ k → k < w → ¬ inOutlineBand R t j k →
      draw_nv12_rect data w h R t YUV_PIXEL_RED (j * w + k) = data (j * w + k)) := by
  obtain ⟨h1, h2⟩ := draw_nv12_rect_coverage data w h t R hl (by omega) ht (by omega) hw
  refine ⟨?_, h2⟩
  intro j k hband
  obtain ⟨a, b, c⟩ := h1 j k hband
  have e1 : w * h + j / 2 * w + (k - k % 2) = j / 2 * w + k - k % 2 + w * h := by ring
  rw [e1]
  exact ⟨a, b, c⟩

/-- C16, the instance: the rectangle (4,4,6,6) with thickness 2 in a blank
16×16 image; the band pixel (row 4, column 4) has luma offset 68 and chroma
offsets 292 and 293. -/
theorem C16_band_coverage_witness :
    draw_nv12_rect (fun _ => 0) 16 16 (Rect.mk 4 4 6 6) 2 YUV_PIXEL_RED (4 * 16 + 4) = 0x4C ∧
    draw_nv12_rect (fun _ => 0) 16 16 (Rect.mk 4 4 6 6) 2 YUV_PIXEL_RED
      (16 * 16 + 4 / 2 * 16 + (4 - 4 % 2)) = 0x54 ∧
    draw_nv12_rect (fun _ => 0) 16 16 (Rect.mk 4 4 6 6) 2 YUV_PIXEL_RED
      (16 * 16 + 4 / 2 * 16 + (4 - 4 % 2) + 1) = 0xFF :=
  (C16_band_coverage (fun _ => 0) 16 16 2 (Rect.mk 4 4 6 6) (by decide) (by decide) (by decide)
    (by decide) (by decide)).1 4 4 (by unfold inOutlineBand; decide)

set_option maxRecDepth 100000 in
/-- C17 does not hold of the code: the constructor takes the thickness 0 as
it is; with it the clamping leaves the rectangle (14,14,16,16) of a 16×16 NV12
image unchanged, the inclusive loops reach row 16 and column 16, and `Process`
writes the chroma bytes at offsets 400 and 401, beyond the 384 bytes of the
buffer. With a thickness of at least 1 (and even width and height) every byte
that `draw_rect` changes lies inside the buffer. -/
theorem C17_zero_thickness_writes_outside :
    (DrawFilter.init none none (some 0)).draw_rect_thick_ = 0 ∧
    draw_rect_clamp 16 16 0 (Rect.mk 14 14 16 16) = Rect.mk 14 14 16 16 ∧
    (∃ r img,
      Process (fun _ => true)
        (Push (DrawFilter.init none none (some 0))
          (1, some (fun _ => RknnResult.mk 0 (Rect.mk 14 14 16 16))))
        (some blankImage) (some blankImage) = some r ∧
      r.output = some img ∧
      blankImage.data 400 = 0 ∧ img.data 400 = 0x54 ∧
      blankImage.data 401 = 0 ∧ img.data 401 = 0xFF) ∧
    ¬ ((400 : Int) < 16 * 16 * 3 / 2) ∧
    (∀ (buffer : ImageBuffer) (rect : Rect) (t o : Int), 1 ≤ t →
      buffer.info.width % 2 = 0 → buffer.info.height % 2 = 0 →
      (draw_rect buffer rect t).data o ≠ buffer.data o →
      0 ≤ o ∧ o < buffer.info.width * buffer.info.height * 3 / 2) := by
  refine ⟨rfl, by decide, ⟨_, _, rfl, rfl, rfl, ?_, rfl, ?_⟩, by decide, ?_⟩
  · rfl
  · rfl
  · intro buffer rect t o ht hw hh hchg
    exact draw_rect_in_bounds buffer rect t ht hw hh o hchg

/-- C14 does not hold of the code. Every `Process` call on image buffers
starts with `empty()` read without the mutex. With one on-time batch queued the
call makes three queue reads, `empty()`, `size()` and `front()`, none of them
under the mutex; with two batches only the `pop()` of the eviction loop is
under it. The producer's `push()` is under the mutex, and the mutex allows the
schedule in which that push falls between the consumer's `size()` test and its
`front()` read. The `pop()` events of the trace are the batches that `Process`
removes. -/
theorem C14_queue_reads_outside_lock :
    (∀ (self : DrawFilter) (src out : ImageBuffer),
      src.type = MediaType.Image → out.type = MediaType.Image →
      (unlockedAccesses false (ProcessTrace self (some src) (some out))).head?
        = some QueueEvent.empty) ∧
    (ProcessTrace (swStage [[RknnResult.mk 0 (Rect.mk 4 4 6 6)]])
        (some blankImage) (some blankImage)
      = [QueueEvent.empty, QueueEvent.size, QueueEvent.front] ∧
     unlockedAccesses false (ProcessTrace (swStage [[RknnResult.mk 0 (Rect.mk 4 4 6 6)]])
        (some blankImage) (some blankImage))
      = [QueueEvent.empty, QueueEvent.size, QueueEvent.front]) ∧
    (ProcessTrace (swStage [[RknnResult.mk 0 (Rect.mk 0 0 8 8)],
          [RknnResult.mk 0 (Rect.mk 4 4 6 6)]]) (some blankImage) (some blankImage)
      = [QueueEvent.empty, QueueEvent.size, QueueEvent.lock, QueueEvent.pop, QueueEvent.unlock,
          QueueEvent.size, QueueEvent.front] ∧
     unlockedAccesses false (ProcessTrace (swStage [[RknnResult.mk 0 (Rect.mk 0 0 8 8)],
          [RknnResult.mk 0 (Rect.mk 4 4 6 6)]]) (some blankImage) (some blankImage))
      = [QueueEvent.empty, QueueEvent.size, QueueEvent.size, QueueEvent.front]) ∧
    (∀ (size : Int) (arg : Option (Nat → RknnResult)),
      IoCtrlTrace (Request.S_SUB_REQUEST
        { sub_request := SubRequestCode.S_NN_INFO, size := size, arg := arg })
        = [QueueEvent.lock, QueueEvent.push, QueueEvent.unlock] ∧
      unlockedAccesses false (IoCtrlTrace (Request.S_SUB_REQUEST
        { sub_request := SubRequestCode.S_NN_INFO, size := size, arg := arg })) = []) ∧
    (mutexOk none
        [(Thread.consumer, QueueEvent.empty), (Thread.consumer, QueueEvent.size),
         (Thread.producer, QueueEvent.lock), (Thread.producer, QueueEvent.push),
         (Thread.producer, QueueEvent.unlock), (Thread.consumer, QueueEvent.front)] = true ∧
     eventsOf Thread.consumer
        [(Thread.consumer, QueueEvent.empty), (Thread.consumer, QueueEvent.size),
         (Thread.producer, QueueEvent.lock), (Thread.producer, QueueEvent.push),
         (Thread.producer, QueueEvent.unlock), (Thread.consumer, QueueEvent.front)]
      = ProcessTrace (swStage [[RknnResult.mk 0 (Rect.mk 4 4 6 6)]])
          (some blankImage) (some blankImage) ∧
     eventsOf Thread.producer
        [(Thread.consumer, QueueEvent.empty), (Thread.consumer, QueueEvent.size),
         (Thread.producer, QueueEvent.lock), (Thread.producer, QueueEvent.push),
         (Thread.producer, QueueEvent.unlock), (Thread.consumer, QueueEvent.front)]
      = IoCtrlTrace (Request.S_SUB_REQUEST
          { sub_request := SubRequestCode.S_NN_INFO, size := 0, arg := none })) ∧
    (∀ (malloc_ok : Int → Bool) (self : DrawFilter) (src out : ImageBuffer) (r : ProcessResult),
      src.type = MediaType.Image → out.type = MediaType.Image →
      Process malloc_ok self (some src) (some out) = some r →
      (ProcessTrace self (some src) (some out)).count QueueEvent.pop +
        r.filter.nn_results_list_.length = self.nn_results_list_.length) := by
  refine ⟨?_, ⟨by decide, by decide⟩, ⟨by decide, by decide⟩, ?_, ⟨by decide, by decide, by decide⟩,
    ?_⟩
  · intro self src out hsrc hout
    obtain ⟨rest, hrest⟩ := ProcessTrace_head self src out hsrc hout
    rw [hrest]
    simp [unlockedAccesses]
  · intro size arg
    constructor
    · simp [IoCtrlTrace]
    · simp [IoCtrlTrace, unlockedAccesses]
  · intro malloc_ok self src out r hsrc hout hr
    exact ProcessTrace_pops malloc_ok self src out r hsrc hout hr

end easymedia
